import Mathlib

/-!
Shallow embedding of the core of the `gto-poker-trainer` repository
(`src/cards.rs`, `src/equity.rs`, `src/rival.rs`, `src/game.rs`,
`src/session.rs`) together with proofs about the specification's claims.

Modelling conventions:
* `f32` quantities are modelled by `ℚ`; every arithmetic operation the code
  performs on them (addition, subtraction, multiplication, division, `max`,
  `min`, `clamp`, comparisons) is mirrored exactly on `ℚ`.
* Panics (`assert!`, `expect`, out-of-bounds indexing) are modelled by
  `Option`: a `none` result is a panic.
* The pseudo-random generator `StdRng` is abstracted as two indexed streams:
  a stream of deck permutations (consumed by `shuffle`) and a stream of
  uniform draws in `[0,1]` (consumed by `Uniform::sample` and by
  `SliceRandom::choose`).  Determinism in the rng state is preserved: each
  consumption advances the corresponding index by one.
* Presentation-only strings (card notation, option descriptions, profile
  names) are elided; `Vec<String>` board/hand renderings in snapshots are
  modelled as the underlying card lists (card notation is injective).
-/

/-!
Exact rational arithmetic layer.  The `Rat` operations shipped with the
library are `@[irreducible]`, so concrete runs of the model could not be
evaluated inside the kernel through them.  The `q*` functions below
implement the same operations with reducible definitions (producing
normalized `Rat.mk'` values); the bridge lemmas `qadd_eq`, `qmul_eq`,
`qle_iff`, … later in this file prove that they agree with the standard
`ℚ` operations, so claim statements can be phrased with ordinary `+`,
`*`, `min`, `max`, `≤`.
-/

/-- Denominator of a normalized fraction is nonzero. -/
theorem qmk_den_nz (n : Int) (d : Nat) (hd : d ≠ 0) : d / n.natAbs.gcd d ≠ 0 := by
  have hg : 0 < n.natAbs.gcd d := Nat.gcd_pos_of_pos_right _ (Nat.pos_of_ne_zero hd)
  have : 0 < d / n.natAbs.gcd d :=
    Nat.div_pos (Nat.le_of_dvd (Nat.pos_of_ne_zero hd) (Nat.gcd_dvd_right _ _)) hg
  omega

/-- A fraction divided by its gcd is reduced. -/
theorem qmk_reduced (n : Int) (d : Nat) (hd : d ≠ 0) :
    (n / (n.natAbs.gcd d : Int)).natAbs.Coprime (d / n.natAbs.gcd d) := by
  have hg : 0 < n.natAbs.gcd d := Nat.gcd_pos_of_pos_right _ (Nat.pos_of_ne_zero hd)
  have hgd : ((n.natAbs.gcd d : Nat) : Int) ∣ n :=
    Int.dvd_natAbs.mp (Int.natCast_dvd_natCast.mpr (Nat.gcd_dvd_left _ _))
  have h3 : (n / (n.natAbs.gcd d : Int)).natAbs = n.natAbs / n.natAbs.gcd d :=
    Int.natAbs_ediv n (n.natAbs.gcd d) hgd
  rw [h3]
  exact Nat.coprime_div_gcd_div_gcd hg

/-- Build the rational `n / d` in lowest terms (`0` when `d = 0`). -/
def qmk (n : Int) (d : Nat) : ℚ :=
  if hd : d = 0 then 0
  else
    Rat.mk' (n / (n.natAbs.gcd d : Int)) (d / n.natAbs.gcd d)
      (qmk_den_nz n d hd) (qmk_reduced n d hd)

/-- Reducible rational addition. -/
def qadd (a b : ℚ) : ℚ := qmk (a.num * b.den + b.num * a.den) (a.den * b.den)

/-- Reducible rational subtraction. -/
def qsub (a b : ℚ) : ℚ := qmk (a.num * b.den - b.num * a.den) (a.den * b.den)

/-- Reducible rational multiplication. -/
def qmul (a b : ℚ) : ℚ := qmk (a.num * b.num) (a.den * b.den)

/-- Reducible rational division (`0` when dividing by `0`, as for `ℚ`). -/
def qdiv (a b : ℚ) : ℚ :=
  if b.num < 0 then qmk (-(a.num * (b.den : Int))) (a.den * b.num.natAbs)
  else qmk (a.num * (b.den : Int)) (a.den * b.num.natAbs)

/-- Reducible rational negation. -/
def qneg (a : ℚ) : ℚ := qmk (-a.num) a.den

/-- Reducible `≤` on rationals by cross multiplication. -/
def qle (a b : ℚ) : Prop := a.num * (b.den : Int) ≤ b.num * (a.den : Int)

/-- Reducible `<` on rationals by cross multiplication. -/
def qlt (a b : ℚ) : Prop := a.num * (b.den : Int) < b.num * (a.den : Int)

instance (a b : ℚ) : Decidable (qle a b) := by unfold qle; infer_instance

instance (a b : ℚ) : Decidable (qlt a b) := by unfold qlt; infer_instance

/-- Reducible maximum (`f32::max`). -/
def qmax (a b : ℚ) : ℚ := if qle a b then b else a

/-- Reducible minimum (`f32::min`). -/
def qmin (a b : ℚ) : ℚ := if qle a b then a else b

/-- Rust `f32::clamp(lo, hi)`: raise to `lo`, then cap at `hi`. -/
def qclamp (x lo hi : ℚ) : ℚ := qmin hi (qmax lo x)

/-- Suit of a card (`cards.rs`, `enum Suit`). -/
inductive Suit where
  | clubs
  | diamonds
  | hearts
  | spades
deriving DecidableEq, Repr, Fintype

/-- Rank of a card (`cards.rs`, `enum Rank`, discriminants 2..=14). -/
inductive Rank where
  | two | three | four | five | six | seven | eight
  | nine | ten | jack | queen | king | ace
deriving DecidableEq, Repr, Fintype

/-- Numeric value of a rank (`Rank::value`, the `u8` discriminant). -/
def Rank.value : Rank → Nat
  | .two => 2
  | .three => 3
  | .four => 4
  | .five => 5
  | .six => 6
  | .seven => 7
  | .eight => 8
  | .nine => 9
  | .ten => 10
  | .jack => 11
  | .queen => 12
  | .king => 13
  | .ace => 14

/-- List of all suits in declaration order (`Suit::ALL`). -/
def suitsAll : List Suit := [.clubs, .diamonds, .hearts, .spades]

/-- List of all ranks in declaration order (`Rank::ALL`). -/
def ranksAll : List Rank :=
  [.two, .three, .four, .five, .six, .seven, .eight,
   .nine, .ten, .jack, .queen, .king, .ace]

/-- A playing card (`cards.rs`, `struct Card`). -/
structure Card where
  rank : Rank
  suit : Suit
deriving DecidableEq, Repr

/-- Rank value of a card (`Card::rank_value`). -/
def Card.rank_value (c : Card) : Nat := c.rank.value

/-- The 52-card deck in construction order: suits outer, ranks inner
(`cards.rs`, `standard_deck`). -/
def standard_deck : List Card :=
  suitsAll.flatMap (fun s => ranksAll.map (fun r => ⟨r, s⟩))

/-- Hand category (`equity.rs`, `enum HandCategory`). -/
inductive HandCategory where
  | HighCard
  | OnePair
  | TwoPair
  | ThreeOfAKind
  | Straight
  | Flush
  | FullHouse
  | FourOfAKind
  | StraightFlush
deriving DecidableEq, Repr, Fintype

/-- Discriminant of a hand category (`#[repr(u8)]` values 0..=8), which is
what the derived `Ord` on `HandCategory` compares. -/
def HandCategory.value : HandCategory → Nat
  | .HighCard => 0
  | .OnePair => 1
  | .TwoPair => 2
  | .ThreeOfAKind => 3
  | .Straight => 4
  | .Flush => 5
  | .FullHouse => 6
  | .FourOfAKind => 7
  | .StraightFlush => 8

/-- Evaluated strength of a five-card hand (`equity.rs`, `struct
HandStrength`).  The `ranks` list always has length 5 (`fill`). -/
structure HandStrength where
  category : HandCategory
  ranks : List Nat
deriving DecidableEq, Repr

/-- Three-way comparison of naturals (mirrors `u8::cmp`). -/
def cmpNat (a b : Nat) : Ordering :=
  if a < b then .lt else if b < a then .gt else .eq

/-- Sequencing of comparisons (mirrors `Ordering::then_with`). -/
def ordThen (a b : Ordering) : Ordering :=
  match a with
  | .eq => b
  | o => o

/-- Lexicographic comparison of rank lists (mirrors the derived `Ord` on
`[u8; 5]`; both lists produced by the evaluator have length 5). -/
def cmpRanks : List Nat → List Nat → Ordering
  | [], [] => .eq
  | [], _ :: _ => .lt
  | _ :: _, [] => .gt
  | a :: as, b :: bs => ordThen (cmpNat a b) (cmpRanks as bs)

/-- Total comparison of hand strengths: category first, then the tie-break
ranks lexicographically (`impl Ord for HandStrength`). -/
def HandStrength.cmp (a b : HandStrength) : Ordering :=
  ordThen (cmpNat a.category.value b.category.value) (cmpRanks a.ranks b.ranks)

/-- Non-strict order derived from `HandStrength.cmp`. -/
def hsLe (a b : HandStrength) : Prop := HandStrength.cmp a b ≠ .gt

instance (a b : HandStrength) : Decidable (hsLe a b) := by
  unfold hsLe; infer_instance

/-- Pad a tie-break vector with zeros to length 5 (`equity.rs`, `fn fill`:
`values.resize(5, 0)` followed by taking the five slots). -/
def fill (values : List Nat) : List Nat :=
  (values ++ List.replicate 5 0).take 5

/-- Insert into a descending-sorted list of naturals. -/
def insertDescNat (x : Nat) : List Nat → List Nat
  | [] => [x]
  | y :: ys => if y ≤ x then x :: y :: ys else y :: insertDescNat x ys

/-- Sort naturals in descending order (mirrors
`sort_unstable_by(|a, b| b.cmp(a))`; the sorted result is unique). -/
def sortDesc : List Nat → List Nat
  | [] => []
  | x :: xs => insertDescNat x (sortDesc xs)

/-- Number of cards with the given rank value (`counts` table); operates on
the list of rank values of the hand. -/
def countRank (rvs : List Nat) (v : Nat) : Nat :=
  rvs.countP (fun r => r == v)

/-- Number of cards with the given suit (`suits` table). -/
def suitCount (cards : List Card) (s : Suit) : Nat :=
  cards.countP (fun c => c.suit == s)

/-- Whether the rank-presence bitmask has the given bit set; bit 1 is the
Ace shadow bit for the wheel (`mask` construction in `evaluate_five`). -/
def rankBit (rvs : List Nat) (v : Nat) : Bool :=
  if v == 1 then rvs.any (fun r => r == 14)
  else rvs.any (fun r => r == v)

/-- Highest straight high-card, scanning 14 down to 5 and stopping at the
first hit (`straight_high` loop in `evaluate_five`). -/
def straightHigh (rvs : List Nat) : Option Nat :=
  ((List.range 10).map (fun k => 14 - k)).find?
    (fun high => (List.range 5).all (fun i => rankBit rvs (high - i)))

/-- Whether group `a` sorts before group `b` under (count descending, then
rank descending) — the comparator `b.0.cmp(&a.0).then_with(|| b.1.cmp(&a.1))`. -/
def groupBefore (a b : Nat × Nat) : Prop :=
  b.1 < a.1 ∨ (a.1 = b.1 ∧ b.2 ≤ a.2)

instance (a b : Nat × Nat) : Decidable (groupBefore a b) := by
  unfold groupBefore; infer_instance

/-- Insertion step for the group sort. -/
def insertGroup (x : Nat × Nat) : List (Nat × Nat) → List (Nat × Nat)
  | [] => [x]
  | y :: ys => if groupBefore x y then x :: y :: ys else y :: insertGroup x ys

/-- Sort groups by (count descending, then rank descending); keys are
distinct so the result equals the source's unstable sort. -/
def sortGroups : List (Nat × Nat) → List (Nat × Nat)
  | [] => []
  | x :: xs => insertGroup x (sortGroups xs)

/-- The `(count, rank)` groups of the hand, ranks 2..=14 with positive
count, sorted by count then rank descending (`groups` in `evaluate_five`). -/
def groups (rvs : List Nat) : List (Nat × Nat) :=
  sortGroups (((List.range 13).map (fun i => i + 2)).filterMap
    (fun v => let c := countRank rvs v
              if c > 0 then some (c, v) else none))

/-- Rank-value part of `evaluate_five`: the decision chain once the flush
flag is known.  The source's early returns are linearized in the same
order: straight flush; quads; full house; flush; straight; trips; two
pair; one pair; high card.  Kicker searches run over the tail of the group
list: the head group's count is never 1 in those branches, so this agrees
with the source's search over the whole list. -/
def evalCore (rvs : List Nat) (is_flush : Bool) : HandStrength :=
  let sorted_cards := sortDesc rvs
  let sh := straightHigh rvs
  let gs := groups rvs
  if is_flush && sh.isSome then
    let high := sh.getD 0
    ⟨.StraightFlush, fill [high, high - 1, high - 2, high - 3, high - 4]⟩
  else
    match gs with
    | (4, rank) :: rest =>
        ⟨.FourOfAKind,
          fill [rank, ((rest.find? (fun g => g.1 == 1)).map Prod.snd).getD 0]⟩
    | (3, rank) :: (2, pair_rank) :: _ => ⟨.FullHouse, fill [rank, pair_rank]⟩
    | gs' =>
        if is_flush then ⟨.Flush, fill sorted_cards⟩
        else
          match sh with
          | some high =>
              ⟨.Straight, fill [high, high - 1, high - 2, high - 3, high - 4]⟩
          | none =>
              match gs' with
              | (3, rank) :: rest =>
                  ⟨.ThreeOfAKind,
                    fill (rank ::
                      sortDesc ((rest.filter (fun g => g.1 == 1)).map Prod.snd))⟩
              | (2, first_pair) :: (2, second_pair) :: rest =>
                  ⟨.TwoPair,
                    fill [first_pair, second_pair,
                      ((rest.find? (fun g => g.1 == 1)).map Prod.snd).getD 0]⟩
              | (2, rank) :: rest =>
                  ⟨.OnePair,
                    fill (rank ::
                      sortDesc ((rest.filter (fun g => g.1 == 1)).map Prod.snd))⟩
              | _ => ⟨.HighCard, fill sorted_cards⟩

/-- Score five cards into a `HandStrength` (`equity.rs`, `evaluate_five`).
The rank tables, straight scan and grouping depend only on the cards' rank
values; the suit table only feeds the flush flag. -/
def evaluate_five (cards : List Card) : HandStrength :=
  evalCore (cards.map Card.rank_value) (suitsAll.any (fun s => suitCount cards s == 5))

/-- One step of `Iterator::max`: keep the accumulator only when it compares
strictly greater, so the last maximal element wins (as in Rust). -/
def maxStep (m y : HandStrength) : HandStrength :=
  if HandStrength.cmp m y = .gt then m else y

/-- Maximum of a list of strengths under the `HandStrength` order
(`Iterator::max`); `none` on the empty list (the source's `expect`). -/
def listMax : List HandStrength → Option HandStrength
  | [] => none
  | x :: xs => some (xs.foldl maxStep x)

/-- Best five-card hand over all five-card subsets (`equity.rs`,
`best_five_card_hand`).  `none` models the `assert!(cards.len() >= 5)`
panic.  `itertools::combinations(5)` enumerates exactly the 5-element
order-preserving sublists, i.e. `List.sublistsLen 5`. -/
def best_five_card_hand (cards : List Card) : Option HandStrength :=
  if 5 ≤ cards.length then
    listMax ((List.sublistsLen 5 cards).map evaluate_five)
  else none

/-- Three-way comparison of strengths (`equity.rs`, `compare_strength`). -/
def compare_strength (a b : HandStrength) : Ordering := HandStrength.cmp a b

/-- Abstract pseudo-random generator state: an indexed stream of deck
permutations (for `shuffle`) and an indexed stream of uniform draws in
`[0,1]` (for `Uniform::sample` and `SliceRandom::choose`). -/
structure Rng where
  perm : Nat → List Card → List Card
  unif : Nat → ℚ
  pidx : Nat
  uidx : Nat

/-- Consume one shuffle from the rng (`deck.shuffle(rng)`). -/
def Rng.nextPerm (r : Rng) (d : List Card) : List Card × Rng :=
  (r.perm r.pidx d, { r with pidx := r.pidx + 1 })

/-- Consume one uniform draw from the rng. -/
def Rng.nextUnif (r : Rng) : ℚ × Rng :=
  (r.unif r.uidx, { r with uidx := r.uidx + 1 })

/-- Remove all copies of a card from the deck (`deck.retain(|c| c != card)`). -/
def removeCard (deck : List Card) (card : Card) : List Card :=
  deck.filter (fun c => decide (c ≠ card))

/-- Pop from the back of a `Vec` (`Vec::pop`); `none` when empty. -/
def vecPop (l : List Card) : Option (Card × List Card) :=
  match l.getLast? with
  | none => none
  | some c => some (c, l.dropLast)

/-- Draw `n` cards from the deck onto the end of the board
(`board.push(deck.pop().expect("cards remain"))`). -/
def drawBoard (board deck : List Card) : Nat → Option (List Card × List Card)
  | 0 => some (board, deck)
  | n + 1 => do
      let (c, deck') ← vecPop deck
      drawBoard (board ++ [c]) deck' n

/-- One Monte-Carlo sample of `monte_carlo_equity`: rebuild the deck, strip
known cards, shuffle, fix or draw the villain hand, complete the board to
five cards, and score the showdown 1 / ½ / 0. -/
def mcSample (hero : List Card) (villain : Option (List Card))
    (board_known : List Card) (rng : Rng) : Option (ℚ × Rng) := do
  let deck := hero.foldl removeCard standard_deck
  let deck := match villain with
    | some vs => vs.foldl removeCard deck
    | none => deck
  let deck := board_known.foldl removeCard deck
  let (deck, rng) := rng.nextPerm deck
  let (villain_cards, deck) ←
    match villain with
    | some vs =>
        match vs with
        | v0 :: v1 :: _ => some ([v0, v1], deck)
        | _ => (none : Option (List Card × List Card))
    | none => do
        let (first, deck) ← vecPop deck
        let (second, deck) ← vecPop deck
        some ([first, second], deck)
  let cards_needed := 5 - board_known.length
  let (board, _deck) ← drawBoard board_known deck cards_needed
  let hero_cards := hero ++ board
  let villain_cards_full := villain_cards ++ board
  let hero_strength ← best_five_card_hand hero_cards
  let villain_strength ← best_five_card_hand villain_cards_full
  let score : ℚ :=
    match compare_strength hero_strength villain_strength with
    | .gt => 1
    | .eq => qmk 1 2
    | .lt => 0
  some (score, rng)

/-- The sampling loop of `monte_carlo_equity`, accumulating the equity sum. -/
def mcLoop (hero : List Card) (villain : Option (List Card))
    (board_known : List Card) : Nat → Rng → ℚ → Option (ℚ × Rng)
  | 0, rng, acc => some (acc, rng)
  | n + 1, rng, acc =>
      match mcSample hero villain board_known rng with
      | none => none
      | some (score, rng') => mcLoop hero villain board_known n rng' (qadd acc score)

/-- Monte-Carlo equity estimate (`equity.rs`, `monte_carlo_equity`).
`none` models a panic; the leading guard is the source's
`assert!(hero.len() == 2)`.  No check is performed on `board_known`. -/
def monte_carlo_equity (hero : List Card) (villain : Option (List Card))
    (board_known : List Card) (samples : Nat) (rng : Rng) : Option (ℚ × Rng) :=
  if hero.length = 2 then
    let samples := samples.max 1
    match mcLoop hero villain board_known samples rng 0 with
    | none => none
    | some (equity_sum, rng') => some (qdiv equity_sum (qmk samples 1), rng')
  else none

/-- Rival style preset (`rival.rs`, `enum RivalStyle`). -/
inductive RivalStyle where
  | Balanced
  | Aggressive
  | Passive
deriving DecidableEq, Repr

/-- Rival behaviour parameters (`rival.rs`, `struct RivalProfile`); the
presentation-only `name` string is elided. -/
structure RivalProfile where
  preflop_fold_to_three_bet : ℚ
  flop_continuation_bet : ℚ
  turn_barrel_frequency : ℚ
  river_probe_frequency : ℚ
  aggression : ℚ
deriving DecidableEq, Repr

/-- Resolve a style preset (`RivalProfile::resolve`). -/
def RivalProfile.resolve : RivalStyle → RivalProfile
  | .Balanced => ⟨qmk 48 100, qmk 62 100, qmk 52 100, qmk 33 100, qmk 5 10⟩
  | .Aggressive => ⟨qmk 38 100, qmk 71 100, qmk 64 100, qmk 47 100, qmk 68 100⟩
  | .Passive => ⟨qmk 57 100, qmk 44 100, qmk 36 100, qmk 21 100, qmk 32 100⟩

/-- Fold-to-3-bet probability (`RivalProfile::fold_to_three_bet`):
baseline + (0.5 − strength) × 0.35, clamped to [0.05, 0.85]. -/
def RivalProfile.fold_to_three_bet (p : RivalProfile) (hero_strength : ℚ) : ℚ :=
  qclamp
    (qadd p.preflop_fold_to_three_bet
      (qmul (qsub (qmk 5 10) hero_strength) (qmk 35 100)))
    (qmk 5 100) (qmk 85 100)

/-- Flop continuation-bet frequency (`RivalProfile::continuation_bet_flop`). -/
def RivalProfile.continuation_bet_flop (p : RivalProfile) : ℚ :=
  p.flop_continuation_bet

/-- Turn barrel frequency (`RivalProfile::barrel_turn`). -/
def RivalProfile.barrel_turn (p : RivalProfile) : ℚ :=
  p.turn_barrel_frequency

/-- River probe frequency (`RivalProfile::probe_river`). -/
def RivalProfile.probe_river (p : RivalProfile) : ℚ :=
  p.river_probe_frequency

/-- One uniform draw compared against a probability
(`RivalProfile::random_fold`); consumes exactly one draw. -/
def RivalProfile.random_fold (_p : RivalProfile) (rng : Rng) (probability : ℚ) :
    Bool × Rng :=
  let (u, rng') := rng.nextUnif
  (decide (qlt u probability), rng')

/-- Cheap preflop strength heuristic (`RivalProfile::hand_strength_hint`).
The pair bonus and the connectedness bonus are mutually exclusive
(`if pair { .. } else if connectors { .. }`). -/
def RivalProfile.hand_strength_hint (_p : RivalProfile) (hero_cards : Card × Card) : ℚ :=
  let r0 := hero_cards.1.rank_value
  let r1 := hero_cards.2.rank_value
  let connectors := ((r0 : ℤ) - (r1 : ℤ)).natAbs ≤ 1
  let pair := hero_cards.1.rank = hero_cards.2.rank
  let suited := hero_cards.1.suit = hero_cards.2.suit
  let base : ℚ := qmk (r0 + r1 : Nat) 28
  let strength := base
  let strength := if pair then qadd strength (qmk 25 100)
                  else if connectors then qadd strength (qmk 8 100) else strength
  let strength := if suited then qadd strength (qmk 5 100) else strength
  qclamp strength 0 1

/-- Refinement reading of the same heuristic following the claim's words:
the +0.25 pair bonus, the +0.08 connectedness bonus and the +0.05 suited
bonus each accumulate for every holding that qualifies for them. -/
def spec_hand_strength_hint (hero_cards : Card × Card) : ℚ :=
  let r0 := hero_cards.1.rank_value
  let r1 := hero_cards.2.rank_value
  let connectors := ((r0 : ℤ) - (r1 : ℤ)).natAbs ≤ 1
  let pair := hero_cards.1.rank = hero_cards.2.rank
  let suited := hero_cards.1.suit = hero_cards.2.suit
  let base : ℚ := qmk (r0 + r1 : Nat) 28
  let strength := base
  let strength := if pair then qadd strength (qmk 25 100) else strength
  let strength := if connectors then qadd strength (qmk 8 100) else strength
  let strength := if suited then qadd strength (qmk 5 100) else strength
  qclamp strength 0 1

/-- Betting street (`game.rs`, `enum Street`). -/
inductive Street where
  | Preflop
  | Flop
  | Turn
  | River
  | Showdown
  | Terminal
deriving DecidableEq, Repr

/-- Kind of a hero action (`game.rs`, `enum HeroActionKind`). -/
inductive HeroActionKind where
  | Fold
  | Call
  | Check
  | Bet
  | Raise
deriving DecidableEq, Repr

/-- A hero action: kind plus optional size (`game.rs`, `struct HeroAction`). -/
structure HeroAction where
  kind : HeroActionKind
  size_bb : Option ℚ
deriving DecidableEq, Repr

/-- A menu entry: action plus computed EV delta (`game.rs`, `struct
ActionOption`); the presentation-only `description` string is elided. -/
structure ActionOption where
  action : HeroAction
  ev_delta_bb : ℚ
deriving DecidableEq, Repr

/-- Presentation snapshot of a decision node (`game.rs`, `struct
NodeSnapshot`); board and hero cards are card lists (notation elided). -/
structure NodeSnapshot where
  street : Street
  pot_bb : ℚ
  effective_stack_bb : ℚ
  board : List Card
  hero_cards : List Card
  rival_cards_known : Bool
  action_options : List ActionOption
deriving DecidableEq, Repr

/-- Fixed starting stack in big blinds (`session.rs`, `MAX_STACK_BB`). -/
def MAX_STACK_BB : ℚ := 100

/-- Preflop open sizes 2.0 / 2.5 / 3.0 (`session.rs`, `OPEN_SIZES`). -/
def OPEN_SIZES : List ℚ := [2, qmk 5 2, 3]

/-- Default 3-bet size (`session.rs`, `DEFAULT_THREE_BET`). -/
def DEFAULT_THREE_BET : ℚ := 9

/-- Session configuration (`session.rs`, `struct SessionConfig`); the
`seed` field is elided because the rng is passed in explicitly. -/
structure SessionConfig where
  hands : Nat
  mc_samples : Nat
  rival_style : RivalStyle
deriving DecidableEq, Repr

/-- Session status (`session.rs`, `enum SessionStatus`). -/
inductive SessionStatus where
  | AwaitingInput
  | Completed
deriving DecidableEq, Repr

/-- Aggregated session summary (`session.rs`, `struct SessionSummary`). -/
structure SessionSummary where
  hands_played : Nat
  total_ev_loss_bb : ℚ
  total_profit_bb : ℚ
deriving DecidableEq, Repr

/-- Full session snapshot (`session.rs`, `struct SessionState`). -/
structure SessionState where
  session_id : Nat
  hand_index : Nat
  node : NodeSnapshot
  status : SessionStatus
  summary : SessionSummary
deriving DecidableEq, Repr

/-- Mutable per-street betting state (`session.rs`, `struct StreetState`). -/
structure StreetState where
  street : Street
  pot_bb : ℚ
  hero_invested_bb : ℚ
  villain_invested_bb : ℚ
  board_revealed : Nat
  effective_stack_bb : ℚ
deriving DecidableEq, Repr

/-- Terminal result of one hand (`session.rs`, `struct HandResult`). -/
structure HandResult where
  profit_bb : ℚ
  ev_loss_bb : ℚ
deriving DecidableEq, Repr

/-- Progress marker returned by action application (`session.rs`,
`enum HandProgress`). -/
inductive HandProgress where
  | InProgress
  | Completed (result : HandResult)
deriving DecidableEq, Repr

/-- One dealt hand and its betting state (`session.rs`, `struct Hand`). -/
structure Hand where
  hero : Card × Card
  villain : Card × Card
  board : List Card
  open_size : ℚ
  raise_size : ℚ
  state : StreetState
  options : List ActionOption
  current_best_ev : ℚ
  total_best_ev : ℚ
  total_chosen_ev : ℚ
  completed : Bool
deriving DecidableEq, Repr

/-- Min of the two remaining stacks, floored at zero (`session.rs`,
`fn effective_stack`). -/
def effective_stack (hero_invested villain_invested : ℚ) : ℚ :=
  qmin (qmax (qsub MAX_STACK_BB hero_invested) 0)
       (qmax (qsub MAX_STACK_BB villain_invested) 0)

/-- Postflop fold probability (`session.rs`, `fn fold_probability`). -/
def fold_probability (profile : RivalProfile) (equity : ℚ) (street : Street) : ℚ :=
  let bm : ℚ × ℚ :=
    match street with
    | .Flop => (qmk 4 10, profile.continuation_bet_flop)
    | .Turn => (qmk 35 100, profile.barrel_turn)
    | .River => (qmk 3 10, profile.probe_river)
    | _ => (qmk 45 100, qmk 5 10)
  let aggression_adjust := qmul (qsub (qmk 5 10) bm.2) (qmk 3 10)
  let equity_adjust := qmul (qsub (qmk 5 10) equity) (qmk 35 100)
  qclamp (qadd (qadd bm.1 aggression_adjust) equity_adjust) (qmk 5 100) (qmk 9 10)

/-- Model of `OPEN_SIZES.choose(rng).unwrap_or(&2.5)`: consume one uniform
draw and pick an index from it. -/
def chooseOpenSize (rng : Rng) : ℚ × Rng :=
  let (u, rng') := rng.nextUnif
  let idx : Nat := if qlt u (qmk 1 3) then 0 else if qlt u (qmk 2 3) then 1 else 2
  (OPEN_SIZES.getD idx (qmk 5 2), rng')

/-- Deal the nine cards of a fresh hand by popping the shuffled deck
(`Hand::new`: two hero cards, two villain cards, five board cards). -/
def deal9 (deck : List Card) :
    Option (Card × Card × Card × Card × List Card) := do
  let (h1, deck) ← vecPop deck
  let (h2, deck) ← vecPop deck
  let (v1, deck) ← vecPop deck
  let (v2, deck) ← vecPop deck
  let (b1, deck) ← vecPop deck
  let (b2, deck) ← vecPop deck
  let (b3, deck) ← vecPop deck
  let (b4, deck) ← vecPop deck
  let (b5, _deck) ← vecPop deck
  some (h1, h2, v1, v2, [b1, b2, b3, b4, b5])

/-- Create a fresh hand from a shuffled deck (`session.rs`, `Hand::new`). -/
def Hand.new (rng : Rng) : Option (Hand × Rng) :=
  let (deck, rng) := rng.nextPerm standard_deck
  match deal9 deck with
  | none => none
  | some (h1, h2, v1, v2, board_cards) =>
      let (open_size, rng) := chooseOpenSize rng
      some
        ({ hero := (h1, h2)
           villain := (v1, v2)
           board := board_cards
           open_size := open_size
           raise_size := DEFAULT_THREE_BET
           state :=
             { street := .Preflop
               pot_bb := qadd open_size 1
               hero_invested_bb := 1
               villain_invested_bb := open_size
               board_revealed := 0
               effective_stack_bb := effective_stack 1 open_size }
           options := []
           current_best_ev := 0
           total_best_ev := 0
           total_chosen_ev := 0
           completed := false }, rng)

/-- Currently revealed board cards (`Hand::visible_board`). -/
def Hand.visible_board (h : Hand) : List Card :=
  h.board.take h.state.board_revealed

/-- Recompute pot and effective stack from the investments
(`Hand::refresh_state`). -/
def Hand.refresh_state (h : Hand) : Hand :=
  { h with state :=
      { h.state with
          pot_bb := qadd h.state.hero_invested_bb h.state.villain_invested_bb
          effective_stack_bb :=
            effective_stack h.state.hero_invested_bb h.state.villain_invested_bb } }

/-- Advance to a street, setting the board reveal count and refreshing
(`Hand::advance_street`). -/
def Hand.advance_street (h : Hand) (target : Street) : Hand :=
  let revealed : Nat :=
    match target with
    | .Flop => 3
    | .Turn => 4
    | .River => 5
    | .Showdown | .Terminal => 5
    | .Preflop => 0
  Hand.refresh_state
    { h with state := { h.state with street := target, board_revealed := revealed } }

/-- Running EV loss, floored at zero (`Hand::current_ev_loss`). -/
def Hand.current_ev_loss (h : Hand) : ℚ :=
  qmax (qsub h.total_best_ev h.total_chosen_ev) 0

/-- Mark the hand terminal and report its result (`Hand::finish`). -/
def Hand.finish (h : Hand) (profit_bb : ℚ) : Hand × HandProgress :=
  let h' := { h with completed := true, state := { h.state with street := .Terminal } }
  (h', .Completed ⟨profit_bb, h'.current_ev_loss⟩)

/-- Reveal the board, compare best hands and award the pot
(`Hand::resolve_showdown`); `none` models an evaluator panic. -/
def Hand.resolve_showdown (h : Hand) : Option (Hand × HandProgress) := do
  let h := { h with state := { h.state with board_revealed := 5, street := .Showdown } }
  let hero_cards := [h.hero.1, h.hero.2] ++ h.board
  let villain_cards := [h.villain.1, h.villain.2] ++ h.board
  let hero_strength ← best_five_card_hand hero_cards
  let villain_strength ← best_five_card_hand villain_cards
  let profit :=
    match compare_strength hero_strength villain_strength with
    | .gt => h.state.villain_invested_bb
    | .lt => qneg h.state.hero_invested_bb
    | .eq => qdiv (qsub h.state.villain_invested_bb h.state.hero_invested_bb) 2
  some (h.finish profit)

/-- Maximum EV across options, or 0 when there is none (`compute_options`:
fold of `f32::max` from `NEG_INFINITY`, then the `is_finite` guard). -/
def maxEvOrZero (opts : List ActionOption) : ℚ :=
  match opts.map (fun o => o.ev_delta_bb) with
  | [] => 0
  | e :: es => es.foldl qmax e

/-- Preflop option menu (`Hand::compute_preflop_options`). -/
def Hand.compute_preflop_options (h : Hand) (rng : Rng) (profile : RivalProfile)
    (samples : Nat) : Option (List ActionOption × Rng) := do
  let hero_strength := profile.hand_strength_hint h.hero
  let (equity, rng) ← monte_carlo_equity [h.hero.1, h.hero.2] none [] samples rng
  let call_cost := qmax (qsub h.open_size h.state.hero_invested_bb) 0
  let pot_after_call := qmul 2 h.open_size
  let call_ev := qsub (qmul equity pot_after_call) (qmul (qsub 1 equity) call_cost)
  let pot_before_raise := h.state.pot_bb
  let raise_to := h.raise_size
  let raise_cost := qmax (qsub raise_to h.state.hero_invested_bb) 0
  let pot_when_called := qmul 2 raise_to
  let fold_prob := profile.fold_to_three_bet hero_strength
  let raise_ev := qadd (qmul fold_prob pot_before_raise)
    (qmul (qsub 1 fold_prob)
      (qsub (qmul equity pot_when_called) (qmul (qsub 1 equity) raise_cost)))
  some
    ([ ⟨⟨.Fold, none⟩, qneg h.state.hero_invested_bb⟩,
       ⟨⟨.Call, some h.open_size⟩, call_ev⟩,
       ⟨⟨.Raise, some raise_to⟩, raise_ev⟩ ], rng)

/-- Postflop option menu (`Hand::compute_postflop_options`). -/
def Hand.compute_postflop_options (h : Hand) (rng : Rng) (profile : RivalProfile)
    (samples : Nat) : Option (List ActionOption × Rng) := do
  let board := h.visible_board
  let (equity, rng) ← monte_carlo_equity [h.hero.1, h.hero.2] none board samples rng
  let pot := h.state.pot_bb
  let check_ev := qmul (qsub (qmul 2 equity) 1) pot
  let bet_multiplier : ℚ :=
    match h.state.street with
    | .Flop => qmk 1 2
    | .Turn => qmk 6 10
    | .River => qmk 75 100
    | _ => qmk 1 2
  let bet_size := qmax (qmul pot bet_multiplier) (qmk 1 2)
  let bet_size := qmin bet_size (qmax h.state.effective_stack_bb 0)
  let bet_size := if qlt bet_size (qmk 1 2) then qmax h.state.effective_stack_bb 0
                  else bet_size
  let fold_prob := fold_probability profile equity h.state.street
  let bet_ev := qadd (qmul fold_prob pot)
    (qmul (qsub 1 fold_prob)
      (qsub (qmul equity (qadd pot (qmul 2 bet_size))) (qmul (qsub 1 equity) bet_size)))
  some
    ([ ⟨⟨.Check, none⟩, check_ev⟩,
       ⟨⟨.Bet, some bet_size⟩, bet_ev⟩ ], rng)

/-- Recompute the option menu and the decision's best EV
(`Hand::compute_options`). -/
def Hand.compute_options (h : Hand) (rng : Rng) (profile : RivalProfile)
    (samples : Nat) : Option (Hand × Rng) :=
  let computed : Option (List ActionOption × Rng) :=
    match h.state.street with
    | .Preflop => h.compute_preflop_options rng profile samples
    | .Flop | .Turn | .River => h.compute_postflop_options rng profile samples
    | .Showdown | .Terminal => some ([], rng)
  match computed with
  | none => none
  | some (options, rng') =>
      some ({ h with options := options, current_best_ev := maxEvOrZero options }, rng')

/-- Apply a chosen preflop action (`Hand::apply_preflop`). -/
def Hand.apply_preflop (h : Hand) (action : HeroAction) (opt : ActionOption)
    (rng : Rng) (profile : RivalProfile) : Option (Hand × HandProgress × Rng) :=
  match action.kind with
  | .Fold =>
      let (h', prog) := h.finish (qneg h.state.hero_invested_bb)
      some (h', prog, rng)
  | .Call =>
      let call_cost := qmax (qsub h.open_size h.state.hero_invested_bb) 0
      let h := { h with state :=
        { h.state with hero_invested_bb := qadd h.state.hero_invested_bb call_cost } }
      let h := h.refresh_state
      let h := h.advance_street .Flop
      some (h, .InProgress, rng)
  | .Raise =>
      let raise_to := opt.action.size_bb.getD h.raise_size
      let raise_cost := qmax (qsub raise_to h.state.hero_invested_bb) 0
      let h := { h with state :=
        { h.state with hero_invested_bb := qadd h.state.hero_invested_bb raise_cost } }
      let h := h.refresh_state
      let hero_strength := profile.hand_strength_hint h.hero
      let fold_prob := profile.fold_to_three_bet hero_strength
      let (folds, rng) := profile.random_fold rng fold_prob
      if folds then
        let (h', prog) := h.finish h.state.villain_invested_bb
        some (h', prog, rng)
      else
        let call_cost := qmax (qsub raise_to h.open_size) 0
        let h := { h with state :=
          { h.state with villain_invested_bb := qadd h.state.villain_invested_bb call_cost } }
        let h := h.refresh_state
        let h := h.advance_street .Flop
        some (h, .InProgress, rng)
  | _ => some (h, .InProgress, rng)

/-- Apply a chosen flop/turn action (`Hand::apply_postflop`). -/
def Hand.apply_postflop (h : Hand) (action : HeroAction) (opt : ActionOption)
    (rng : Rng) (profile : RivalProfile) (samples : Nat) :
    Option (Hand × HandProgress × Rng) :=
  match action.kind with
  | .Check =>
      let next : Street :=
        match h.state.street with
        | .Flop => .Turn
        | .Turn => .River
        | _ => .River
      some (h.advance_street next, .InProgress, rng)
  | .Bet => do
      let bet_size := opt.action.size_bb.getD 0
      let bet_size := if qle bet_size 0 then qmax (qmul h.state.pot_bb (qmk 1 2)) (qmk 1 2)
                      else bet_size
      let bet_size := qmin bet_size (qmax h.state.effective_stack_bb 0)
      let h := { h with state :=
        { h.state with hero_invested_bb := qadd h.state.hero_invested_bb bet_size } }
      let h := h.refresh_state
      let board := h.visible_board
      let (equity, rng) ← monte_carlo_equity [h.hero.1, h.hero.2] none board samples rng
      let fold_prob := fold_probability profile equity h.state.street
      let (folds, rng) := profile.random_fold rng fold_prob
      if folds then
        let (h', prog) := h.finish h.state.villain_invested_bb
        some (h', prog, rng)
      else
        let call_size := qmin bet_size (qmax (qsub MAX_STACK_BB h.state.villain_invested_bb) 0)
        let h := { h with state :=
          { h.state with villain_invested_bb := qadd h.state.villain_invested_bb call_size } }
        let h := h.refresh_state
        let next : Street :=
          match h.state.street with
          | .Flop => .Turn
          | .Turn => .River
          | _ => .River
        some (h.advance_street next, .InProgress, rng)
  | _ => some (h, .InProgress, rng)

/-- Apply a chosen river action (`Hand::apply_river`). -/
def Hand.apply_river (h : Hand) (action : HeroAction) (opt : ActionOption)
    (rng : Rng) (profile : RivalProfile) (samples : Nat) :
    Option (Hand × HandProgress × Rng) :=
  match action.kind with
  | .Check => do
      let (h', prog) ← h.resolve_showdown
      some (h', prog, rng)
  | .Bet => do
      let bet_size := opt.action.size_bb.getD 0
      let bet_size := if qle bet_size 0 then qmax (qmul h.state.pot_bb (qmk 75 100)) (qmk 1 2)
                      else bet_size
      let bet_size := qmin bet_size (qmax h.state.effective_stack_bb 0)
      let h := { h with state :=
        { h.state with hero_invested_bb := qadd h.state.hero_invested_bb bet_size } }
      let h := h.refresh_state
      let board := h.visible_board
      let (equity, rng) ← monte_carlo_equity [h.hero.1, h.hero.2] none board samples rng
      let fold_prob := fold_probability profile equity .River
      let (folds, rng) := profile.random_fold rng fold_prob
      if folds then
        let (h', prog) := h.finish h.state.villain_invested_bb
        some (h', prog, rng)
      else
        let call_size := qmin bet_size (qmax (qsub MAX_STACK_BB h.state.villain_invested_bb) 0)
        let h := { h with state :=
          { h.state with villain_invested_bb := qadd h.state.villain_invested_bb call_size } }
        let h := h.refresh_state
        let (h', prog) ← h.resolve_showdown
        some (h', prog, rng)
  | _ => some (h, .InProgress, rng)

/-- Apply a hero action to the hand (`Hand::apply_action`).  An action
absent from the current menu returns `InProgress` without touching the
hand; a matched action first accrues the EV accumulators, then dispatches
on the street. -/
def Hand.apply_action (h : Hand) (action : HeroAction) (rng : Rng)
    (profile : RivalProfile) (samples : Nat) : Option (Hand × HandProgress × Rng) :=
  match h.options.find? (fun candidate => decide (candidate.action = action)) with
  | none => some (h, .InProgress, rng)
  | some chosen =>
      let h := { h with
        total_best_ev := qadd h.total_best_ev h.current_best_ev
        total_chosen_ev := qadd h.total_chosen_ev chosen.ev_delta_bb }
      match h.state.street with
      | .Preflop => h.apply_preflop action chosen rng profile
      | .Flop | .Turn => h.apply_postflop action chosen rng profile samples
      | .River => h.apply_river action chosen rng profile samples
      | .Showdown | .Terminal =>
          some (h, .Completed ⟨0, h.current_ev_loss⟩, rng)

/-- Presentation snapshot of the hand (`Hand::node_snapshot`). -/
def Hand.node_snapshot (h : Hand) : NodeSnapshot :=
  { street := h.state.street
    pot_bb := h.state.pot_bb
    effective_stack_bb := qmax h.state.effective_stack_bb 0
    board := h.board.take h.state.board_revealed
    hero_cards := [h.hero.1, h.hero.2]
    rival_cards_known := h.completed
    action_options := h.options }

/-- A training session (`session.rs`, `struct Session`); the `Uuid` id is
modelled as a `Nat`. -/
structure Session where
  session_id : Nat
  rng : Rng
  config : SessionConfig
  profile : RivalProfile
  current_hand : Option Hand
  summary : SessionSummary

/-- Create a session with a fresh first hand (`Session::new`); the seed is
replaced by the explicit rng argument. -/
def Session.new (sid : Nat) (config : SessionConfig) (rng : Rng) : Option Session := do
  let profile := RivalProfile.resolve config.rival_style
  let (hand, rng) ← Hand.new rng
  let (hand, rng) ← hand.compute_options rng profile config.mc_samples
  some
    { session_id := sid
      rng := rng
      config := config
      profile := profile
      current_hand := some hand
      summary := ⟨0, 0, 0⟩ }

/-- Take a presentation snapshot, recomputing an empty menu of a live hand
first (`Session::snapshot`). -/
def Session.snapshot (s : Session) : Option (SessionState × Session) :=
  match s.current_hand with
  | some hand =>
      let recomputed : Option (Hand × Rng) :=
        if hand.options.isEmpty && !hand.completed then
          hand.compute_options s.rng s.profile s.config.mc_samples
        else some (hand, s.rng)
      match recomputed with
      | none => none
      | some (hand, rng) =>
          let s' := { s with current_hand := some hand, rng := rng }
          some
            ({ session_id := s'.session_id
               hand_index := s'.summary.hands_played + 1
               node := hand.node_snapshot
               status := .AwaitingInput
               summary := s'.summary }, s')
  | none =>
      some
        ({ session_id := s.session_id
           hand_index := s.summary.hands_played
           node :=
             { street := .Terminal
               pot_bb := 0
               effective_stack_bb := 0
               board := []
               hero_cards := []
               rival_cards_known := true
               action_options := [] }
           status := .Completed
           summary := s.summary }, s)

/-- Apply a hero action to the session (`Session::apply_action`).  A
completed or absent hand is a no-op; an in-progress hand recomputes its
menu; a completed hand result is folded into the summary and the next
hand is dealt when more are configured. -/
def Session.apply_action (s : Session) (action : HeroAction) : Option Session :=
  match s.current_hand with
  | none => some s
  | some hand =>
      if hand.completed then some s
      else
        match hand.apply_action action s.rng s.profile s.config.mc_samples with
        | none => none
        | some (hand, .InProgress, rng) =>
            match hand.compute_options rng s.profile s.config.mc_samples with
            | none => none
            | some (hand, rng) =>
                some { s with current_hand := some hand, rng := rng }
        | some (_, .Completed result, rng) =>
            let summary : SessionSummary :=
              { hands_played := s.summary.hands_played + 1
                total_ev_loss_bb := qadd s.summary.total_ev_loss_bb result.ev_loss_bb
                total_profit_bb := qadd s.summary.total_profit_bb result.profit_bb }
            if summary.hands_played < s.config.hands then
              match Hand.new rng with
              | none => none
              | some (next, rng) =>
                  match next.compute_options rng s.profile s.config.mc_samples with
                  | none => none
                  | some (next, rng) =>
                      some { s with current_hand := some next, rng := rng, summary := summary }
            else
              some { s with current_hand := none, rng := rng, summary := summary }

/-!  Bridge lemmas: the reducible `q*` arithmetic agrees with `ℚ`. -/

/-- `qmk` builds the ordinary rational quotient. -/
theorem qmk_eq_div (n : Int) (d : Nat) : qmk n d = (n : ℚ) / (d : ℚ) := by
  unfold qmk
  split
  case isTrue hd => subst hd; simp
  case isFalse hd =>
    have hg : 0 < n.natAbs.gcd d := Nat.gcd_pos_of_pos_right _ (Nat.pos_of_ne_zero hd)
    have hdvdn : ((n.natAbs.gcd d : Nat) : Int) ∣ n :=
      Int.dvd_natAbs.mp (Int.natCast_dvd_natCast.mpr (Nat.gcd_dvd_left _ _))
    have hdvdd : n.natAbs.gcd d ∣ d := Nat.gcd_dvd_right _ _
    rw [Rat.mk'_eq_divInt, Rat.divInt_eq_div]
    set g := n.natAbs.gcd d with hGdef
    clear_value g
    obtain ⟨n', rfl⟩ := hdvdn
    obtain ⟨d', rfl⟩ := hdvdd
    have hgz : ((g : Nat) : Int) ≠ 0 := by exact_mod_cast hg.ne'
    have hgq : ((g : Nat) : ℚ) ≠ 0 := by exact_mod_cast hg.ne'
    rw [Int.mul_ediv_cancel_left _ hgz, Nat.mul_div_cancel_left _ hg]
    push_cast
    rw [mul_div_mul_left _ _ hgq]

/-- `qadd` is addition on `ℚ`. -/
theorem qadd_eq (a b : ℚ) : qadd a b = a + b := by
  have ha : ((a.den : ℚ)) ≠ 0 := by exact_mod_cast a.den_nz
  have hb : ((b.den : ℚ)) ≠ 0 := by exact_mod_cast b.den_nz
  rw [qadd, qmk_eq_div]
  conv_rhs => rw [← Rat.num_div_den a, ← Rat.num_div_den b]
  rw [div_add_div _ _ ha hb]
  push_cast
  ring_nf

/-- `qsub` is subtraction on `ℚ`. -/
theorem qsub_eq (a b : ℚ) : qsub a b = a - b := by
  have ha : ((a.den : ℚ)) ≠ 0 := by exact_mod_cast a.den_nz
  have hb : ((b.den : ℚ)) ≠ 0 := by exact_mod_cast b.den_nz
  rw [qsub, qmk_eq_div]
  conv_rhs => rw [← Rat.num_div_den a, ← Rat.num_div_den b]
  rw [div_sub_div _ _ ha hb]
  push_cast
  ring_nf

/-- `qmul` is multiplication on `ℚ`. -/
theorem qmul_eq (a b : ℚ) : qmul a b = a * b := by
  have ha : ((a.den : ℚ)) ≠ 0 := by exact_mod_cast a.den_nz
  have hb : ((b.den : ℚ)) ≠ 0 := by exact_mod_cast b.den_nz
  rw [qmul, qmk_eq_div]
  conv_rhs => rw [← Rat.num_div_den a, ← Rat.num_div_den b]
  rw [div_mul_div_comm]
  push_cast
  ring_nf

/-- `qneg` is negation on `ℚ`. -/
theorem qneg_eq (a : ℚ) : qneg a = -a := by
  rw [qneg, qmk_eq_div]
  conv_rhs => rw [← Rat.num_div_den a]
  push_cast
  ring_nf

/-- `qle` is `≤` on `ℚ`. -/
theorem qle_iff (a b : ℚ) : qle a b ↔ a ≤ b := by
  rw [qle, Rat.le_def]

/-- `qlt` is `<` on `ℚ`. -/
theorem qlt_iff (a b : ℚ) : qlt a b ↔ a < b := by
  rw [qlt, Rat.lt_def]

/-- `qmax` is `max` on `ℚ`. -/
theorem qmax_eq (a b : ℚ) : qmax a b = max a b := by
  rw [qmax, max_def]
  by_cases h : a ≤ b
  · rw [if_pos ((qle_iff a b).mpr h), if_pos h]
  · rw [if_neg (fun hq => h ((qle_iff a b).mp hq)), if_neg h]

/-- `qmin` is `min` on `ℚ`. -/
theorem qmin_eq (a b : ℚ) : qmin a b = min a b := by
  rw [qmin, min_def]
  by_cases h : a ≤ b
  · rw [if_pos ((qle_iff a b).mpr h), if_pos h]
  · rw [if_neg (fun hq => h ((qle_iff a b).mp hq)), if_neg h]

/-- `qclamp` is `min hi (max lo x)` on `ℚ`. -/
theorem qclamp_eq (x lo hi : ℚ) : qclamp x lo hi = min hi (max lo x) := by
  rw [qclamp, qmin_eq, qmax_eq]

/-- `qdiv` is division on `ℚ`. -/
theorem qdiv_eq (a b : ℚ) : qdiv a b = a / b := by
  have ha : ((a.den : ℚ)) ≠ 0 := by exact_mod_cast a.den_nz
  have hb : ((b.den : ℚ)) ≠ 0 := by exact_mod_cast b.den_nz
  rw [qdiv]
  by_cases hneg : b.num < 0
  · rw [if_pos hneg, qmk_eq_div]
    conv_rhs => rw [← Rat.num_div_den a, ← Rat.num_div_den b]
    have h1 : ((b.num.natAbs : Nat) : ℤ) = -b.num := by omega
    have hq : ((b.num.natAbs : Nat) : ℚ) = -(b.num : ℚ) :=
      calc ((b.num.natAbs : Nat) : ℚ) = (((b.num.natAbs : Nat) : ℤ) : ℚ) :=
            (Int.cast_natCast _).symm
        _ = ((-b.num : ℤ) : ℚ) := by rw [h1]
        _ = -(b.num : ℚ) := Int.cast_neg _
    push_cast
    rw [hq]
    have hbq : (b.num : ℚ) ≠ 0 := by
      have h2 : b.num ≠ 0 := by omega
      exact_mod_cast h2
    field_simp
  · by_cases hz : b.num = 0
    · have hb0 : b = 0 := by
        rw [← Rat.num_div_den b, hz]; simp
      rw [if_neg hneg, hz]
      simp [hb0, qmk_eq_div]
    · rw [if_neg hneg, qmk_eq_div]
      conv_rhs => rw [← Rat.num_div_den a, ← Rat.num_div_den b]
      have h1 : ((b.num.natAbs : Nat) : ℤ) = b.num := by omega
      have hq : ((b.num.natAbs : Nat) : ℚ) = (b.num : ℚ) :=
        calc ((b.num.natAbs : Nat) : ℚ) = (((b.num.natAbs : Nat) : ℤ) : ℚ) :=
              (Int.cast_natCast _).symm
          _ = (b.num : ℚ) := by rw [h1]
      push_cast
      rw [hq]
      have hbq : (b.num : ℚ) ≠ 0 := by exact_mod_cast hz
      field_simp

/-!  Order theory for `HandStrength.cmp`: it is a total order whose
equality is structural equality, as needed to reason about `Iterator::max`. -/

theorem cmpNat_char (a b : Nat) :
    (cmpNat a b = .lt ↔ a < b) ∧ (cmpNat a b = .eq ↔ a = b) ∧ (cmpNat a b = .gt ↔ b < a) := by
  unfold cmpNat
  rcases Nat.lt_trichotomy a b with h | h | h
  · rw [if_pos h]
    exact ⟨⟨fun _ => h, fun _ => rfl⟩,
      ⟨fun hx => Ordering.noConfusion hx, fun hx => by omega⟩,
      ⟨fun hx => Ordering.noConfusion hx, fun hx => by omega⟩⟩
  · subst h
    rw [if_neg (by omega), if_neg (by omega)]
    exact ⟨⟨fun hx => Ordering.noConfusion hx, fun hx => by omega⟩,
      ⟨fun _ => rfl, fun _ => rfl⟩,
      ⟨fun hx => Ordering.noConfusion hx, fun hx => by omega⟩⟩
  · rw [if_neg (by omega), if_pos h]
    exact ⟨⟨fun hx => Ordering.noConfusion hx, fun hx => by omega⟩,
      ⟨fun hx => Ordering.noConfusion hx, fun hx => by omega⟩,
      ⟨fun _ => h, fun _ => rfl⟩⟩

theorem cmpNat_lt_iff (a b : Nat) : cmpNat a b = .lt ↔ a < b := (cmpNat_char a b).1

theorem cmpNat_eq_iff (a b : Nat) : cmpNat a b = .eq ↔ a = b := (cmpNat_char a b).2.1

theorem cmpNat_gt_iff (a b : Nat) : cmpNat a b = .gt ↔ b < a := (cmpNat_char a b).2.2

theorem ordering_notGt_iff (o : Ordering) : o ≠ .gt ↔ o = .lt ∨ o = .eq := by
  cases o <;> simp

theorem ordThen_eq_iff (a b : Ordering) : ordThen a b = .eq ↔ a = .eq ∧ b = .eq := by
  cases a <;> simp [ordThen]

theorem ordThen_lt_iff (a b : Ordering) : ordThen a b = .lt ↔ a = .lt ∨ (a = .eq ∧ b = .lt) := by
  cases a <;> simp [ordThen]

theorem ordThen_gt_iff (a b : Ordering) : ordThen a b = .gt ↔ a = .gt ∨ (a = .eq ∧ b = .gt) := by
  cases a <;> simp [ordThen]

theorem cmpRanks_eq_iff : ∀ (a b : List Nat), cmpRanks a b = .eq ↔ a = b
  | [], [] => by simp [cmpRanks]
  | [], _ :: _ => by simp [cmpRanks]
  | _ :: _, [] => by simp [cmpRanks]
  | a :: as, b :: bs => by
      rw [cmpRanks, ordThen_eq_iff, cmpNat_eq_iff, cmpRanks_eq_iff as bs]
      simp

theorem cmpRanks_lt_trans :
    ∀ (a b c : List Nat), cmpRanks a b = .lt → cmpRanks b c = .lt → cmpRanks a c = .lt
  | [], [], _ :: _, _, _ => by simp [cmpRanks]
  | [], _ :: _, _ :: _, _, _ => by simp [cmpRanks]
  | a :: as, b :: bs, c :: cs, hab, hbc => by
      rw [cmpRanks, ordThen_lt_iff] at hab hbc ⊢
      rw [cmpNat_lt_iff, cmpNat_eq_iff] at hab hbc ⊢
      rcases hab with h1 | ⟨h1, h1'⟩ <;> rcases hbc with h2 | ⟨h2, h2'⟩
      · exact Or.inl (by omega)
      · exact Or.inl (by omega)
      · exact Or.inl (by omega)
      · exact Or.inr ⟨by omega, cmpRanks_lt_trans as bs cs h1' h2'⟩
  | [], [], [], h, _ => by simp [cmpRanks] at h
  | _ :: _, [], _, h, _ => by simp [cmpRanks] at h
  | [], _ :: _, [], _, h => by simp [cmpRanks] at h
  | _ :: _, _ :: _, [], _, h => by simp [cmpRanks] at h

theorem hs_catval_inj : ∀ c d : HandCategory, c.value = d.value → c = d := by decide

theorem hs_cmp_eq_iff (a b : HandStrength) : HandStrength.cmp a b = .eq ↔ a = b := by
  rw [HandStrength.cmp, ordThen_eq_iff, cmpNat_eq_iff, cmpRanks_eq_iff]
  constructor
  · rintro ⟨h1, h2⟩
    cases a; cases b
    simp only at h1 h2
    simp [hs_catval_inj _ _ h1, h2]
  · rintro rfl
    exact ⟨rfl, rfl⟩

theorem hs_cmp_refl (a : HandStrength) : HandStrength.cmp a a = .eq :=
  (hs_cmp_eq_iff a a).mpr rfl

theorem hs_cmp_lt_trans (a b c : HandStrength) (hab : HandStrength.cmp a b = .lt)
    (hbc : HandStrength.cmp b c = .lt) : HandStrength.cmp a c = .lt := by
  rw [HandStrength.cmp, ordThen_lt_iff, cmpNat_lt_iff, cmpNat_eq_iff] at hab hbc ⊢
  rcases hab with h1 | ⟨h1, h1'⟩ <;> rcases hbc with h2 | ⟨h2, h2'⟩
  · exact Or.inl (by omega)
  · exact Or.inl (by omega)
  · exact Or.inl (by omega)
  · exact Or.inr ⟨by omega, cmpRanks_lt_trans _ _ _ h1' h2'⟩

theorem cmpNat_swap (a b : Nat) : cmpNat b a = (cmpNat a b).swap := by
  unfold cmpNat
  rcases Nat.lt_trichotomy a b with h | h | h
  · simp only [if_pos h, if_neg (show ¬b < a by omega)]; rfl
  · subst h; simp only [if_neg (show ¬a < a by omega)]; rfl
  · simp only [if_pos h, if_neg (show ¬a < b by omega)]; rfl

theorem ordThen_swap (a b : Ordering) : (ordThen a b).swap = ordThen a.swap b.swap := by
  cases a <;> rfl

theorem cmpRanks_swap : ∀ (a b : List Nat), cmpRanks b a = (cmpRanks a b).swap
  | [], [] => rfl
  | [], _ :: _ => rfl
  | _ :: _, [] => rfl
  | a :: as, b :: bs => by
      rw [cmpRanks, cmpRanks, ordThen_swap, ← cmpNat_swap, ← cmpRanks_swap as bs]

theorem hs_cmp_swap (a b : HandStrength) : HandStrength.cmp b a = (HandStrength.cmp a b).swap := by
  rw [HandStrength.cmp, HandStrength.cmp, ordThen_swap, ← cmpNat_swap, ← cmpRanks_swap]

theorem hsLe_refl (a : HandStrength) : hsLe a a := by
  rw [hsLe, hs_cmp_refl]; simp

theorem hsLe_of_cmp_gt (a b : HandStrength) (h : HandStrength.cmp a b = .gt) : hsLe b a := by
  rw [hsLe, hs_cmp_swap, h]
  simp [Ordering.swap]

theorem hsLe_trans (a b c : HandStrength) (hab : hsLe a b) (hbc : hsLe b c) : hsLe a c := by
  rw [hsLe, ordering_notGt_iff] at hab hbc ⊢
  rcases hab with h1 | h1
  · rcases hbc with h2 | h2
    · exact Or.inl (hs_cmp_lt_trans a b c h1 h2)
    · rw [hs_cmp_eq_iff] at h2; subst h2; exact Or.inl h1
  · rw [hs_cmp_eq_iff] at h1; subst h1
    exact hbc

theorem maxStep_mem (m y : HandStrength) : maxStep m y = m ∨ maxStep m y = y := by
  unfold maxStep; split <;> simp

theorem le_maxStep_left (m y : HandStrength) : hsLe m (maxStep m y) := by
  unfold maxStep
  split
  case isTrue h => exact hsLe_refl m
  case isFalse h => exact h

theorem le_maxStep_right (m y : HandStrength) : hsLe y (maxStep m y) := by
  unfold maxStep
  split
  case isTrue h => exact hsLe_of_cmp_gt m y h
  case isFalse h => exact hsLe_refl y

theorem foldl_maxStep_spec :
    ∀ (xs : List HandStrength) (x : HandStrength),
      (xs.foldl maxStep x = x ∨ xs.foldl maxStep x ∈ xs) ∧
      hsLe x (xs.foldl maxStep x) ∧ ∀ y ∈ xs, hsLe y (xs.foldl maxStep x)
  | [], x => ⟨Or.inl rfl, hsLe_refl x, by simp⟩
  | z :: zs, x => by
      have ih := foldl_maxStep_spec zs (maxStep x z)
      rw [List.foldl_cons]
      refine ⟨?_, ?_, ?_⟩
      · rcases ih.1 with h | h
        · rcases maxStep_mem x z with h2 | h2
          · exact Or.inl (h.trans h2)
          · exact Or.inr (by rw [h, h2]; exact List.mem_cons_self z zs)
        · exact Or.inr (List.mem_cons_of_mem z h)
      · exact hsLe_trans _ _ _ (le_maxStep_left x z) ih.2.1
      · intro y hy
        rcases List.mem_cons.mp hy with rfl | hy
        · exact hsLe_trans _ _ _ (le_maxStep_right x y) ih.2.1
        · exact ih.2.2 y hy

theorem listMax_spec (l : List HandStrength) (hne : l ≠ []) :
    ∃ m, listMax l = some m ∧ m ∈ l ∧ ∀ y ∈ l, hsLe y m := by
  match l, hne with
  | x :: xs, _ =>
      refine ⟨xs.foldl maxStep x, rfl, ?_, ?_⟩
      · rcases (foldl_maxStep_spec xs x).1 with h | h
        · rw [h]; exact List.mem_cons_self x xs
        · exact List.mem_cons_of_mem x h
      · intro y hy
        rcases List.mem_cons.mp hy with rfl | hy
        · exact (foldl_maxStep_spec xs y).2.1
        · exact (foldl_maxStep_spec xs x).2.2 y hy

theorem c1_best_five_is_max (cards : List Card) (h5 : 5 ≤ cards.length)
    (_hnd : cards.Nodup) :
    ∃ m, best_five_card_hand cards = some m ∧
      (∃ s ∈ List.sublistsLen 5 cards, evaluate_five s = m) ∧
      (∀ s ∈ List.sublistsLen 5 cards, hsLe (evaluate_five s) m) ∧
      (List.sublistsLen 5 cards).length = Nat.choose cards.length 5 := by
  have hlen : (List.sublistsLen 5 cards).length = Nat.choose cards.length 5 :=
    List.length_sublistsLen 5 cards
  have hne : (List.sublistsLen 5 cards).map evaluate_five ≠ [] := by
    intro h
    have hlm : ((List.sublistsLen 5 cards).map evaluate_five).length = 0 := by rw [h]; rfl
    rw [List.length_map, hlen] at hlm
    have hpos := Nat.choose_pos h5
    omega
  obtain ⟨m, hmax, hmem, hall⟩ := listMax_spec _ hne
  refine ⟨m, ?_, ?_, ?_, hlen⟩
  · rw [best_five_card_hand, if_pos h5, hmax]
  · obtain ⟨s, hs, he⟩ := List.mem_map.mp hmem
    exact ⟨s, hs, he⟩
  · intro s hs
    exact hall _ (List.mem_map_of_mem evaluate_five hs)

/-- Concrete seven-card input for the `C1` witness (the repository's
`quads_outrank_full_house` test hand). -/
def c1SevenCards : List Card :=
  [⟨.nine, .clubs⟩, ⟨.nine, .diamonds⟩, ⟨.nine, .hearts⟩, ⟨.nine, .spades⟩,
   ⟨.ace, .clubs⟩, ⟨.ace, .hearts⟩, ⟨.five, .clubs⟩]

/-- Witness for `C1` at a concrete seven-card hand. -/
theorem c1_best_five_is_max_witness :
    5 ≤ c1SevenCards.length ∧ c1SevenCards.Nodup ∧
      (∃ m, best_five_card_hand c1SevenCards = some m ∧
        (∃ s ∈ List.sublistsLen 5 c1SevenCards, evaluate_five s = m) ∧
        (∀ s ∈ List.sublistsLen 5 c1SevenCards, hsLe (evaluate_five s) m) ∧
        (List.sublistsLen 5 c1SevenCards).length = Nat.choose c1SevenCards.length 5) :=
  ⟨by decide, by decide, c1_best_five_is_max c1SevenCards (by decide) (by decide)⟩

/-- The wheel A-2-3-4-5 with arbitrary suits. -/
def wheelCards (s1 s2 s3 s4 s5 : Suit) : List Card :=
  [⟨.ace, s1⟩, ⟨.two, s2⟩, ⟨.three, s3⟩, ⟨.four, s4⟩, ⟨.five, s5⟩]

/-- The 6-high straight 6-5-4-3-2 with arbitrary suits. -/
def sixHighCards (s1 s2 s3 s4 s5 : Suit) : List Card :=
  [⟨.six, s1⟩, ⟨.five, s2⟩, ⟨.four, s3⟩, ⟨.three, s4⟩, ⟨.two, s5⟩]

set_option maxHeartbeats 2000000 in
/-- Five cards whose suits are not all equal never set the flush flag. -/
theorem wheel_flush_flag (s1 s2 s3 s4 s5 : Suit)
    (h : ¬(s1 = s2 ∧ s1 = s3 ∧ s1 = s4 ∧ s1 = s5)) :
    (suitsAll.any fun t => suitCount (wheelCards s1 s2 s3 s4 s5) t == 5) = false := by
  cases s1 <;> cases s2 <;> cases s3 <;> cases s4 <;> cases s5 <;> revert h <;> decide

/-- Whatever the flush flag, a 6-high straight scores above the wheel value
(the flag only promotes it to a straight flush). -/
theorem sixHigh_beats_wheel_core : ∀ b : Bool,
    HandStrength.cmp ⟨.Straight, [5, 4, 3, 2, 1]⟩ (evalCore [6, 5, 4, 3, 2] b) = .lt := by
  decide

/-- C4: the wheel A-2-3-4-5 (suits not forming a flush) evaluates to a
straight with high card 5 (tie-break ranks `[5,4,3,2,1]`), and that value
is strictly below the evaluation of any 6-high straight 6-5-4-3-2,
whatever that hand's suits. -/
theorem c4_wheel_straight (s1 s2 s3 s4 s5 t1 t2 t3 t4 t5 : Suit)
    (hnf : ¬(s1 = s2 ∧ s1 = s3 ∧ s1 = s4 ∧ s1 = s5)) :
    evaluate_five (wheelCards s1 s2 s3 s4 s5) =
        ⟨.Straight, [5, 4, 3, 2, 1]⟩ ∧
      HandStrength.cmp (evaluate_five (wheelCards s1 s2 s3 s4 s5))
        (evaluate_five (sixHighCards t1 t2 t3 t4 t5)) = .lt := by
  have heval : evaluate_five (wheelCards s1 s2 s3 s4 s5) =
      ⟨.Straight, [5, 4, 3, 2, 1]⟩ := by
    show evalCore [14, 2, 3, 4, 5]
        (suitsAll.any fun t => suitCount (wheelCards s1 s2 s3 s4 s5) t == 5) = _
    rw [wheel_flush_flag s1 s2 s3 s4 s5 hnf]
    decide
  refine ⟨heval, ?_⟩
  rw [heval]
  exact sixHigh_beats_wheel_core
    (suitsAll.any fun t => suitCount (sixHighCards t1 t2 t3 t4 t5) t == 5)

/-- Witness for `C4` at concrete suits (the 6-high straight is even taken
all-hearts, where it scores as a straight flush). -/
theorem c4_wheel_straight_witness :
    ¬((Suit.clubs = Suit.diamonds) ∧ (Suit.clubs = Suit.hearts) ∧
        (Suit.clubs = Suit.spades) ∧ (Suit.clubs = Suit.clubs)) ∧
      (evaluate_five (wheelCards .clubs .diamonds .hearts .spades .clubs) =
          ⟨.Straight, [5, 4, 3, 2, 1]⟩ ∧
        HandStrength.cmp (evaluate_five (wheelCards .clubs .diamonds .hearts .spades .clubs))
          (evaluate_five (sixHighCards .hearts .hearts .hearts .hearts .hearts)) = .lt) :=
  ⟨by decide,
    c4_wheel_straight .clubs .diamonds .hearts .spades .clubs
      .hearts .hearts .hearts .hearts .hearts (by decide)⟩

/-- An rng whose permutation stream leaves every deck unchanged and whose
uniform stream always draws 0. -/
def idRng : Rng := ⟨fun _ d => d, fun _ => 0, 0, 0⟩

/-- C2 (amended): the hero-slice precondition is enforced — with a hero
slice that does not hold exactly two cards, `monte_carlo_equity` panics
(returns `none`), for every villain argument, board, sample count and rng
state.  (The claimed board-length check does not exist in the code; see
the counterexample.) -/
theorem c2_hero_assert (hero : List Card) (villain : Option (List Card))
    (board_known : List Card) (samples : Nat) (rng : Rng)
    (h : hero.length ≠ 2) :
    monte_carlo_equity hero villain board_known samples rng = none := by
  rw [monte_carlo_equity, if_neg h]

/-- Witness for `C2` at a concrete empty hero slice. -/
theorem c2_hero_assert_witness :
    ([] : List Card).length ≠ 2 ∧
      monte_carlo_equity [] none [] 5 idRng = none :=
  ⟨by decide, c2_hero_assert [] none [] 5 idRng (by decide)⟩

/-- Hero holding for the `C2` counterexample. -/
def c2Hero : List Card := [⟨.ace, .spades⟩, ⟨.king, .spades⟩]

/-- Fixed villain holding for the `C2` counterexample. -/
def c2Villain : List Card := [⟨.queen, .hearts⟩, ⟨.jack, .hearts⟩]

/-- A six-card known board — more than the five the claim says must be
rejected. -/
def c2Board : List Card :=
  [⟨.two, .clubs⟩, ⟨.three, .clubs⟩, ⟨.four, .clubs⟩,
   ⟨.five, .clubs⟩, ⟨.six, .clubs⟩, ⟨.seven, .clubs⟩]

set_option maxRecDepth 10000 in
/-- Counterexample to `C2` as stated: with a valid two-card hero but a
six-card known board, `monte_carlo_equity` does **not** fail — it returns
a value, silently computing over the oversized board. -/
theorem c2_board_not_checked :
    c2Board.length = 6 ∧ c2Hero.length = 2 ∧
      (monte_carlo_equity c2Hero (some c2Villain) c2Board 1 idRng).isSome = true := by
  decide

/-- The balanced preset, used as a concrete profile in witnesses. -/
def profB : RivalProfile := RivalProfile.resolve .Balanced

/-- Counterexample to `C6` as stated: a pair of twos qualifies for the
pair bonus, the connectedness bonus (rank difference 0) — and per the
claim also their sum — but the code's `else if` grants only the pair
bonus: the hint is 1/7 + 0.25 = 11/28, not 11/28 + 0.08 = 331/700. -/
theorem c6_counterexample :
    ((⟨.two, .clubs⟩ : Card).rank = (⟨.two, .diamonds⟩ : Card).rank) ∧
    ((((⟨.two, .clubs⟩ : Card).rank_value : ℤ) -
        ((⟨.two, .diamonds⟩ : Card).rank_value : ℤ)).natAbs ≤ 1) ∧
    RivalProfile.hand_strength_hint profB (⟨.two, .clubs⟩, ⟨.two, .diamonds⟩) = qmk 11 28 ∧
    spec_hand_strength_hint (⟨.two, .clubs⟩, ⟨.two, .diamonds⟩) = qmk 331 700 ∧
    RivalProfile.hand_strength_hint profB (⟨.two, .clubs⟩, ⟨.two, .diamonds⟩) ≠
      spec_hand_strength_hint (⟨.two, .clubs⟩, ⟨.two, .diamonds⟩) := by
  decide

/-- C6 (amended): the hint is the normalized rank sum plus **either** the
+0.25 pair bonus **or else** the +0.08 connectedness bonus (one-gap-or-less,
only for non-pairs), plus an independent +0.05 suited bonus, clamped to
[0, 1]. -/
theorem c6_hint_formula (p : RivalProfile) (c0 c1 : Card) :
    p.hand_strength_hint (c0, c1) =
      min 1 (max 0 (((c0.rank_value + c1.rank_value : Nat) : ℚ) / 28
        + (if c0.rank = c1.rank then 0.25
           else if ((c0.rank_value : ℤ) - (c1.rank_value : ℤ)).natAbs ≤ 1 then 0.08 else 0)
        + (if c0.suit = c1.suit then 0.05 else 0))) := by
  unfold RivalProfile.hand_strength_hint
  rw [qclamp_eq]
  congr 1
  congr 1
  split_ifs <;>
    simp only [qadd_eq, qmk_eq_div] <;> push_cast <;> norm_num

/-- C7: on every postflop street the fold probability equals the street
baseline (0.4 / 0.35 / 0.3) plus (0.5 − street aggression metric) × 0.3
plus (0.5 − equity) × 0.35, clamped to [0.05, 0.9]; the metric is the
profile's continuation-bet, barrel, or probe frequency respectively. -/
theorem c7_fold_probability (profile : RivalProfile) (equity : ℚ) (street : Street)
    (h : street = .Flop ∨ street = .Turn ∨ street = .River) :
    fold_probability profile equity street =
      min 0.9 (max 0.05
        ((match street with
          | .Flop => (0.4 : ℚ)
          | .Turn => 0.35
          | .River => 0.3
          | _ => 0)
         + (0.5 - (match street with
            | .Flop => profile.continuation_bet_flop
            | .Turn => profile.barrel_turn
            | .River => profile.probe_river
            | _ => 0)) * 0.3
         + (0.5 - equity) * 0.35)) := by
  rcases h with rfl | rfl | rfl <;>
    · unfold fold_probability
      rw [qclamp_eq]
      simp only [qadd_eq, qmul_eq, qsub_eq, qmk_eq_div]
      norm_num

/-- Witness for `C7` on the flop with the balanced profile and equity ½. -/
theorem c7_fold_probability_witness :
    fold_probability profB (1/2) .Flop =
      min 0.9 (max 0.05
        (((0.4 : ℚ))
         + (0.5 - profB.continuation_bet_flop) * 0.3
         + (0.5 - (1/2 : ℚ)) * 0.35)) :=
  c7_fold_probability profB (1/2) .Flop (Or.inl rfl)

/-- The `StreetState` invariant, phrased with the model arithmetic: the pot
is the sum of the investments and the effective stack is the min of the
remaining stacks floored at zero, with the fixed 100 bb cap. -/
def StateOK (st : StreetState) : Prop :=
  st.pot_bb = qadd st.hero_invested_bb st.villain_invested_bb ∧
  st.effective_stack_bb =
    qmin (qmax (qsub 100 st.hero_invested_bb) 0) (qmax (qsub 100 st.villain_invested_bb) 0)

instance (st : StreetState) : Decidable (StateOK st) := by
  unfold StateOK; infer_instance

/-- `refresh_state` establishes the invariant unconditionally. -/
theorem StateOK_refresh (h : Hand) : StateOK (h.refresh_state).state :=
  ⟨rfl, rfl⟩

/-- `advance_street` ends in `refresh_state`, so it establishes the invariant. -/
theorem StateOK_advance (h : Hand) (t : Street) : StateOK (h.advance_street t).state :=
  StateOK_refresh _

/-- `finish` touches only the street and completion flag, preserving the
invariant. -/
theorem StateOK_finish (h : Hand) (p : ℚ) (hok : StateOK h.state) :
    StateOK ((h.finish p).1).state := hok

/-- `resolve_showdown` touches only street and reveal count, preserving the
invariant. -/
theorem StateOK_resolve (h : Hand) (hok : StateOK h.state) (h' : Hand) (prog : HandProgress)
    (heq : h.resolve_showdown = some (h', prog)) : StateOK h'.state := by
  unfold Hand.resolve_showdown at heq
  simp only [bind, Option.bind] at heq
  rcases hb1 : best_five_card_hand ([h.hero.1, h.hero.2] ++ h.board) with _ | hs <;>
    rw [hb1] at heq
  · simp at heq
  · dsimp only at heq
    rcases hb2 : best_five_card_hand ([h.villain.1, h.villain.2] ++ h.board) with _ | vs <;>
      rw [hb2] at heq
    · simp at heq
    · dsimp only at heq
      injection heq with heq1
      obtain ⟨rfl, rfl⟩ : _ = h' ∧ _ = prog :=
        ⟨congrArg Prod.fst heq1, congrArg Prod.snd heq1⟩
      exact hok

/-- A freshly created hand satisfies the invariant. -/
theorem StateOK_new (rng : Rng) (h : Hand) (rng' : Rng)
    (heq : Hand.new rng = some (h, rng')) : StateOK h.state := by
  unfold Hand.new at heq
  rcases hp : rng.nextPerm standard_deck with ⟨deck, rng1⟩
  rw [hp] at heq
  dsimp only at heq
  rcases hd : deal9 deck with _ | ⟨h1, h2, v1, v2, board⟩ <;> rw [hd] at heq
  · simp at heq
  · dsimp only at heq
    rcases hc : chooseOpenSize rng1 with ⟨os, rng2⟩
    rw [hc] at heq
    dsimp only at heq
    injection heq with heq1
    obtain rfl : _ = h := congrArg Prod.fst heq1
    refine ⟨?_, rfl⟩
    show qadd os 1 = qadd 1 os
    rw [qadd_eq, qadd_eq]
    ring

/-- `apply_preflop` preserves the invariant on every path. -/
theorem StateOK_apply_preflop (h : Hand) (a : HeroAction) (opt : ActionOption) (rng : Rng)
    (profile : RivalProfile) (hok : StateOK h.state) (h' : Hand) (prog : HandProgress)
    (rng' : Rng) (heq : h.apply_preflop a opt rng profile = some (h', prog, rng')) :
    StateOK h'.state := by
  unfold Hand.apply_preflop at heq
  cases hk : a.kind <;> rw [hk] at heq <;>
    simp only [Hand.finish, Option.some.injEq, Prod.mk.injEq] at heq
  case Fold =>
    obtain ⟨rfl, -⟩ := heq
    exact hok
  case Call =>
    obtain ⟨rfl, -⟩ := heq
    exact StateOK_advance _ _
  case Raise =>
    split at heq
    · obtain ⟨rfl, -⟩ := heq
      exact StateOK_refresh _
    · obtain ⟨rfl, -⟩ := heq
      exact StateOK_advance _ _
  case Check =>
    obtain ⟨rfl, -⟩ := heq
    exact hok
  case Bet =>
    obtain ⟨rfl, -⟩ := heq
    exact hok

/-- `apply_postflop` preserves the invariant on every path. -/
theorem StateOK_apply_postflop (h : Hand) (a : HeroAction) (opt : ActionOption) (rng : Rng)
    (profile : RivalProfile) (samples : Nat) (hok : StateOK h.state) (h' : Hand)
    (prog : HandProgress) (rng' : Rng)
    (heq : h.apply_postflop a opt rng profile samples = some (h', prog, rng')) :
    StateOK h'.state := by
  unfold Hand.apply_postflop at heq
  cases hk : a.kind <;> rw [hk] at heq <;>
    simp only [bind, Option.bind, Hand.finish, Option.some.injEq, Prod.mk.injEq] at heq
  case Check =>
    obtain ⟨rfl, -⟩ := heq
    exact StateOK_advance _ _
  case Bet =>
    split_ifs at heq <;>
    · split at heq
      · exact absurd heq (by simp)
      · simp only [Option.some.injEq, Prod.mk.injEq] at heq
        split at heq
        · obtain ⟨rfl, -⟩ := heq
          exact StateOK_refresh _
        · obtain ⟨rfl, -⟩ := heq
          exact StateOK_advance _ _
  case Fold =>
    obtain ⟨rfl, -⟩ := heq
    exact hok
  case Call =>
    obtain ⟨rfl, -⟩ := heq
    exact hok
  case Raise =>
    obtain ⟨rfl, -⟩ := heq
    exact hok

/-- `apply_river` preserves the invariant on every path. -/
theorem StateOK_apply_river (h : Hand) (a : HeroAction) (opt : ActionOption) (rng : Rng)
    (profile : RivalProfile) (samples : Nat) (hok : StateOK h.state) (h' : Hand)
    (prog : HandProgress) (rng' : Rng)
    (heq : h.apply_river a opt rng profile samples = some (h', prog, rng')) :
    StateOK h'.state := by
  unfold Hand.apply_river at heq
  cases hk : a.kind <;> rw [hk] at heq <;>
    simp only [bind, Option.bind, Hand.finish, Option.some.injEq, Prod.mk.injEq] at heq
  case Check =>
    split at heq
    · exact absurd heq (by simp)
    · next h1 p1 hres =>
      simp only [Option.some.injEq, Prod.mk.injEq] at heq
      obtain ⟨rfl, -⟩ := heq
      exact StateOK_resolve _ hok _ _ hres
  case Bet =>
    split_ifs at heq <;>
    · split at heq
      · exact absurd heq (by simp)
      · simp only [Option.some.injEq, Prod.mk.injEq] at heq
        split at heq
        · obtain ⟨rfl, -⟩ := heq
          exact StateOK_refresh _
        · split at heq
          · exact absurd heq (by simp)
          · next h1 p1 hres =>
            simp only [Option.some.injEq, Prod.mk.injEq] at heq
            obtain ⟨rfl, -⟩ := heq
            exact StateOK_resolve _ (StateOK_refresh _) _ _ hres
  case Fold =>
    obtain ⟨rfl, -⟩ := heq
    exact hok
  case Call =>
    obtain ⟨rfl, -⟩ := heq
    exact hok
  case Raise =>
    obtain ⟨rfl, -⟩ := heq
    exact hok

/-- `Hand::apply_action` preserves the invariant on every path. -/
theorem StateOK_apply_action (h : Hand) (a : HeroAction) (rng : Rng)
    (profile : RivalProfile) (samples : Nat) (hok : StateOK h.state) (h' : Hand)
    (prog : HandProgress) (rng' : Rng)
    (heq : h.apply_action a rng profile samples = some (h', prog, rng')) :
    StateOK h'.state := by
  unfold Hand.apply_action at heq
  rcases hf : h.options.find? (fun candidate => decide (candidate.action = a)) with _ | chosen <;>
    rw [hf] at heq <;> dsimp only at heq
  · injection heq with heq1
    obtain rfl : h = h' := congrArg (fun p => p.1) heq1
    exact hok
  · rcases hst : h.state.street with _ | _ | _ | _ | _ | _ <;> rw [hst] at heq <;>
      dsimp only at heq
    case Preflop =>
      refine StateOK_apply_preflop _ a chosen rng profile ?_ h' prog rng' heq
      exact hok
    case Flop =>
      refine StateOK_apply_postflop _ a chosen rng profile samples ?_ h' prog rng' heq
      exact hok
    case Turn =>
      refine StateOK_apply_postflop _ a chosen rng profile samples ?_ h' prog rng' heq
      exact hok
    case River =>
      refine StateOK_apply_river _ a chosen rng profile samples ?_ h' prog rng' heq
      exact hok
    case Showdown =>
      injection heq with heq1
      obtain rfl : _ = h' := congrArg (fun p => p.1) heq1
      exact hok
    case Terminal =>
      injection heq with heq1
      obtain rfl : _ = h' := congrArg (fun p => p.1) heq1
      exact hok

/-- C5: `StateOK` is exactly the claimed invariant — pot equals the sum of
the two investments, and the effective stack is the min of the remaining
stacks floored at zero against the fixed 100 bb cap — and it holds after
hand creation and is preserved by every (panic-free) action application. -/
theorem c5_street_state_invariant :
    (∀ st : StreetState, StateOK st ↔
      (st.pot_bb = st.hero_invested_bb + st.villain_invested_bb ∧
       st.effective_stack_bb =
         min (max (100 - st.hero_invested_bb) 0)
             (max (100 - st.villain_invested_bb) 0))) ∧
    (∀ rng h rng', Hand.new rng = some (h, rng') → StateOK h.state) ∧
    (∀ (h : Hand) a rng profile samples h' prog rng',
       StateOK h.state →
       Hand.apply_action h a rng profile samples = some (h', prog, rng') →
       StateOK h'.state) := by
  refine ⟨?_, StateOK_new, ?_⟩
  · intro st
    unfold StateOK
    rw [qadd_eq, qmin_eq, qmax_eq, qmax_eq, qsub_eq, qsub_eq]
  · intro h a rng profile samples h' prog rng' hok heq
    exact StateOK_apply_action h a rng profile samples hok h' prog rng' heq

/-- Concrete live preflop hand for the `C5` witness. -/
def c5wHand : Hand :=
  { hero := (⟨.ace, .spades⟩, ⟨.king, .spades⟩)
    villain := (⟨.two, .hearts⟩, ⟨.three, .hearts⟩)
    board := [⟨.four, .clubs⟩, ⟨.five, .clubs⟩, ⟨.six, .clubs⟩,
              ⟨.seven, .clubs⟩, ⟨.eight, .clubs⟩]
    open_size := 2
    raise_size := 9
    state := ⟨.Preflop, 3, 1, 2, 0, 98⟩
    options := [⟨⟨.Fold, none⟩, qneg 1⟩]
    current_best_ev := qneg 1
    total_best_ev := 0
    total_chosen_ev := 0
    completed := false }

/-- The hand `c5wHand` after the hero folds preflop. -/
def c5wHand' : Hand :=
  { c5wHand with
    total_best_ev := qneg 1
    total_chosen_ev := qneg 1
    completed := true
    state := { c5wHand.state with street := .Terminal } }

/-- Witness for `C5`: the concrete fold step preserves the invariant. -/
theorem c5_street_state_invariant_witness :
    StateOK c5wHand.state ∧
      Hand.apply_action c5wHand ⟨.Fold, none⟩ idRng profB 1 =
        some (c5wHand', .Completed ⟨qneg 1, 0⟩, idRng) ∧
      StateOK c5wHand'.state := by
  have hok : StateOK c5wHand.state := by decide
  have heq : Hand.apply_action c5wHand ⟨.Fold, none⟩ idRng profB 1 =
      some (c5wHand', .Completed ⟨qneg 1, 0⟩, idRng) := rfl
  exact ⟨hok, heq,
    c5_street_state_invariant.2.2 c5wHand ⟨.Fold, none⟩ idRng profB 1
      c5wHand' (.Completed ⟨qneg 1, 0⟩) idRng hok heq⟩

/-- `compute_options` only replaces the option menu and the recorded best
EV; every other field of the hand is untouched. -/
theorem compute_options_fields (h : Hand) (rng : Rng) (profile : RivalProfile)
    (samples : Nat) (h' : Hand) (rng' : Rng)
    (heq : h.compute_options rng profile samples = some (h', rng')) :
    h'.state = h.state ∧ h'.hero = h.hero ∧ h'.villain = h.villain ∧
      h'.board = h.board ∧ h'.open_size = h.open_size ∧ h'.raise_size = h.raise_size ∧
      h'.total_best_ev = h.total_best_ev ∧ h'.total_chosen_ev = h.total_chosen_ev ∧
      h'.completed = h.completed := by
  unfold Hand.compute_options at heq
  rcases hst : h.state.street <;> rw [hst] at heq <;> dsimp only at heq
  case Preflop =>
    rcases hopt : h.compute_preflop_options rng profile samples with _ | ⟨opts, rngX⟩ <;>
      rw [hopt] at heq
    · exact absurd heq (by simp)
    · dsimp only at heq
      injection heq with heq1
      obtain rfl : _ = h' := congrArg Prod.fst heq1
      exact ⟨rfl, rfl, rfl, rfl, rfl, rfl, rfl, rfl, rfl⟩
  case Flop =>
    rcases hopt : h.compute_postflop_options rng profile samples with _ | ⟨opts, rngX⟩ <;>
      rw [hopt] at heq
    · exact absurd heq (by simp)
    · dsimp only at heq
      injection heq with heq1
      obtain rfl : _ = h' := congrArg Prod.fst heq1
      exact ⟨rfl, rfl, rfl, rfl, rfl, rfl, rfl, rfl, rfl⟩
  case Turn =>
    rcases hopt : h.compute_postflop_options rng profile samples with _ | ⟨opts, rngX⟩ <;>
      rw [hopt] at heq
    · exact absurd heq (by simp)
    · dsimp only at heq
      injection heq with heq1
      obtain rfl : _ = h' := congrArg Prod.fst heq1
      exact ⟨rfl, rfl, rfl, rfl, rfl, rfl, rfl, rfl, rfl⟩
  case River =>
    rcases hopt : h.compute_postflop_options rng profile samples with _ | ⟨opts, rngX⟩ <;>
      rw [hopt] at heq
    · exact absurd heq (by simp)
    · dsimp only at heq
      injection heq with heq1
      obtain rfl : _ = h' := congrArg Prod.fst heq1
      exact ⟨rfl, rfl, rfl, rfl, rfl, rfl, rfl, rfl, rfl⟩
  case Showdown =>
    injection heq with heq1
    obtain rfl : _ = h' := congrArg Prod.fst heq1
    exact ⟨rfl, rfl, rfl, rfl, rfl, rfl, rfl, rfl, rfl⟩
  case Terminal =>
    injection heq with heq1
    obtain rfl : _ = h' := congrArg Prod.fst heq1
    exact ⟨rfl, rfl, rfl, rfl, rfl, rfl, rfl, rfl, rfl⟩

/-- The postflop menu is never empty (it always offers check and bet). -/
theorem compute_postflop_two_options (h : Hand) (rng : Rng) (profile : RivalProfile)
    (samples : Nat) (opts : List ActionOption) (rng' : Rng)
    (heq : h.compute_postflop_options rng profile samples = some (opts, rng')) :
    opts ≠ [] := by
  unfold Hand.compute_postflop_options at heq
  simp only [bind, Option.bind] at heq
  rcases hmc : monte_carlo_equity [h.hero.1, h.hero.2] none h.visible_board samples rng with
      _ | ⟨equity, rng2⟩ <;> rw [hmc] at heq
  · exact absurd heq (by simp)
  · dsimp only at heq
    injection heq with heq1
    obtain rfl : _ = opts := congrArg Prod.fst heq1
    simp

/-- Recomputing options on the flop yields a non-empty menu. -/
theorem compute_options_flop_nonempty (h : Hand) (rng : Rng) (profile : RivalProfile)
    (samples : Nat) (h' : Hand) (rng' : Rng) (hst : h.state.street = .Flop)
    (heq : h.compute_options rng profile samples = some (h', rng')) :
    h'.options ≠ [] := by
  unfold Hand.compute_options at heq
  rw [hst] at heq
  dsimp only at heq
  rcases hopt : h.compute_postflop_options rng profile samples with _ | ⟨opts, rngX⟩ <;>
    rw [hopt] at heq
  · exact absurd heq (by simp)
  · dsimp only at heq
    injection heq with heq1
    obtain rfl : _ = h' := congrArg Prod.fst heq1
    exact compute_postflop_two_options h rng profile samples opts rngX hopt

/-- A list containing a match makes `find?` succeed. -/
theorem find?_some_of_mem {α : Type} (p : α → Bool) (l : List α)
    (hx : ∃ x ∈ l, p x = true) : ∃ y, l.find? p = some y := by
  obtain ⟨x, hm, hp⟩ := hx
  exact Option.isSome_iff_exists.mp (List.find?_isSome.mpr ⟨x, hm, hp⟩)

/-- C8 (amended): every `advance_street` transition sets the revealed board
count to exactly 0/3/4/5 for Preflop/Flop/Turn/River (and 5 for Showdown
and Terminal targets), and a valid preflop Call moves the hand to the
Flop with exactly 3 revealed cards, a 3-card snapshot board, and an
unchanged summary.  (A hand that *finishes* by a fold keeps the reveal
count of the street it folded on — see the counterexample — so the
original claim's "5 at Terminal" clause fails.) -/
theorem c8_board_reveal_amended :
    (∀ (h : Hand) (t : Street),
       (h.advance_street t).state.street = t ∧
       (h.advance_street t).state.board_revealed =
         (match t with
          | .Preflop => 0
          | .Flop => 3
          | .Turn => 4
          | .River => 5
          | .Showdown => 5
          | .Terminal => 5)) ∧
    (∀ (s : Session) (hand : Hand),
       s.current_hand = some hand →
       hand.completed = false →
       hand.state.street = .Preflop →
       hand.board.length = 5 →
       (∃ opt ∈ hand.options, opt.action = ⟨.Call, some hand.open_size⟩) →
       (Session.apply_action s ⟨.Call, some hand.open_size⟩).isSome = true →
       ∃ s' h', Session.apply_action s ⟨.Call, some hand.open_size⟩ = some s' ∧
         s'.current_hand = some h' ∧ h'.state.street = .Flop ∧
         h'.state.board_revealed = 3 ∧ s'.summary = s.summary ∧
         ∃ st s'', Session.snapshot s' = some (st, s'') ∧
           st.node.board.length = 3 ∧
           st.summary.hands_played = s.summary.hands_played) := by
  constructor
  · intro h t
    exact ⟨rfl, by cases t <;> rfl⟩
  · intro s hand hhand hlive hst hblen hopt hsucc
    obtain ⟨s', happ⟩ := Option.isSome_iff_exists.mp hsucc
    have happ0 := happ
    have hfind0 : ∃ y, hand.options.find?
        (fun c => decide (c.action =
          ({ kind := .Call, size_bb := some hand.open_size } : HeroAction))) = some y :=
      find?_some_of_mem _ _
        (by obtain ⟨o, hm, he⟩ := hopt; exact ⟨o, hm, decide_eq_true he⟩)
    obtain ⟨copt, hfind⟩ := hfind0
    unfold Session.apply_action at happ
    rw [hhand] at happ
    dsimp only at happ
    rw [if_neg (by simp [hlive])] at happ
    unfold Hand.apply_action at happ
    rw [hfind] at happ
    try dsimp only at happ
    rw [hst] at happ
    try dsimp only at happ
    simp only [Hand.apply_preflop] at happ
    try dsimp only at happ
    split at happ
    · exact absurd happ (by simp)
    · next h4 rng4 hco =>
      simp only [Option.some.injEq] at happ
      subst happ
      obtain ⟨hstate, -, -, hboard, -, -, -, -, -⟩ :=
        compute_options_fields _ _ _ _ _ _ hco
      have hnon : h4.options ≠ [] :=
        compute_options_flop_nonempty _ _ _ _ _ _ rfl hco
      refine ⟨_, h4, happ0, rfl, ?_, ?_, rfl, ?_⟩
      · rw [hstate]; rfl
      · rw [hstate]; rfl
      · unfold Session.snapshot
        try dsimp only
        rw [if_neg ?cond]
        case cond =>
          rw [List.isEmpty_eq_false.mpr hnon]
          simp
        refine ⟨_, _, rfl, ?_, rfl⟩
        dsimp only [Hand.node_snapshot]
        rw [hstate, hboard]
        show (hand.board.take 3).length = 3
        rw [List.length_take, hblen]
        omega

/-- Concrete live preflop hand for the `C8` counterexample. -/
def c8Hand : Hand :=
  { hero := (⟨.ace, .spades⟩, ⟨.king, .spades⟩)
    villain := (⟨.two, .hearts⟩, ⟨.three, .hearts⟩)
    board := [⟨.four, .clubs⟩, ⟨.five, .clubs⟩, ⟨.six, .clubs⟩,
              ⟨.seven, .clubs⟩, ⟨.eight, .clubs⟩]
    open_size := 2
    raise_size := 9
    state := ⟨.Preflop, 3, 1, 2, 0, 98⟩
    options := [⟨⟨.Fold, none⟩, qneg 1⟩]
    current_best_ev := qneg 1
    total_best_ev := 0
    total_chosen_ev := 0
    completed := false }

/-- Counterexample to `C8` as stated: a preflop fold drives the street to
`Terminal` while the revealed board count stays 0, not the claimed 5. -/
theorem c8_counterexample :
    (Hand.apply_action c8Hand ⟨.Fold, none⟩ idRng profB 1).map
        (fun r => (r.1.state.street, r.1.state.board_revealed)) =
      some (Street.Terminal, 0) ∧ (0 : Nat) ≠ 5 :=
  ⟨rfl, by decide⟩

/-- Concrete live preflop hand (with a call option) for the `C8` witness. -/
def c8wHand : Hand :=
  { hero := (⟨.ace, .spades⟩, ⟨.king, .spades⟩)
    villain := (⟨.two, .hearts⟩, ⟨.three, .hearts⟩)
    board := [⟨.four, .clubs⟩, ⟨.five, .clubs⟩, ⟨.six, .clubs⟩,
              ⟨.seven, .clubs⟩, ⟨.eight, .clubs⟩]
    open_size := 2
    raise_size := 9
    state := ⟨.Preflop, 3, 1, 2, 0, 98⟩
    options := [⟨⟨.Call, some 2⟩, 0⟩]
    current_best_ev := 0
    total_best_ev := 0
    total_chosen_ev := 0
    completed := false }

/-- Concrete session wrapping `c8wHand` for the `C8` witness. -/
def c8wSession : Session :=
  { session_id := 0
    rng := idRng
    config := ⟨1, 1, .Balanced⟩
    profile := profB
    current_hand := some c8wHand
    summary := ⟨0, 0, 0⟩ }

set_option maxRecDepth 10000 in
/-- Witness for `C8` at a concrete preflop call. -/
theorem c8_board_reveal_amended_witness :
    c8wSession.current_hand = some c8wHand ∧
      c8wHand.completed = false ∧
      c8wHand.state.street = .Preflop ∧
      c8wHand.board.length = 5 ∧
      (∃ opt ∈ c8wHand.options, opt.action = ⟨.Call, some c8wHand.open_size⟩) ∧
      (Session.apply_action c8wSession ⟨.Call, some c8wHand.open_size⟩).isSome = true ∧
      (∃ s' h', Session.apply_action c8wSession ⟨.Call, some c8wHand.open_size⟩ = some s' ∧
        s'.current_hand = some h' ∧ h'.state.street = .Flop ∧
        h'.state.board_revealed = 3 ∧ s'.summary = c8wSession.summary ∧
        ∃ st s'', Session.snapshot s' = some (st, s'') ∧
          st.node.board.length = 3 ∧
          st.summary.hands_played = c8wSession.summary.hands_played) :=
  ⟨rfl, rfl, rfl, by decide, by decide, by decide,
    c8_board_reveal_amended.2 c8wSession c8wHand rfl rfl rfl (by decide) (by decide) (by decide)⟩

/-- C3 (amended): applying an action absent from the menu of a live hand
leaves the betting state, the cards, the sizes, the EV accumulators and
the session summary untouched — but the option menu is recomputed with
fresh Monte-Carlo samples (consuming rng state), so the snapshot's EV
deltas are not guaranteed to be unchanged. -/
theorem c3_no_match_recomputes (s : Session) (hand : Hand) (a : HeroAction)
    (hhand : s.current_hand = some hand)
    (hlive : hand.completed = false)
    (hnotin : ∀ opt ∈ hand.options, opt.action ≠ a)
    (hsucc : (Session.apply_action s a).isSome = true) :
    ∃ s' h', Session.apply_action s a = some s' ∧
      s'.summary = s.summary ∧ s'.config = s.config ∧ s'.profile = s.profile ∧
      s'.session_id = s.session_id ∧ s'.current_hand = some h' ∧
      h'.state = hand.state ∧ h'.hero = hand.hero ∧ h'.villain = hand.villain ∧
      h'.board = hand.board ∧ h'.open_size = hand.open_size ∧
      h'.raise_size = hand.raise_size ∧ h'.total_best_ev = hand.total_best_ev ∧
      h'.total_chosen_ev = hand.total_chosen_ev ∧ h'.completed = false := by
  obtain ⟨s', happ⟩ := Option.isSome_iff_exists.mp hsucc
  have happ0 := happ
  have hfindnone : hand.options.find? (fun c => decide (c.action = a)) = none :=
    List.find?_eq_none.mpr (fun x hx => by
      simp only [decide_eq_true_eq]
      exact hnotin x hx)
  unfold Session.apply_action at happ
  rw [hhand] at happ
  dsimp only at happ
  rw [if_neg (by simp [hlive])] at happ
  unfold Hand.apply_action at happ
  rw [hfindnone] at happ
  try dsimp only at happ
  split at happ
  · exact absurd happ (by simp)
  · next h4 rng4 hco =>
    simp only [Option.some.injEq] at happ
    subst happ
    obtain ⟨hstate, hhero, hvillain, hboard, hopen, hraise, hbest, hchosen, hcomp⟩ :=
      compute_options_fields _ _ _ _ _ _ hco
    exact ⟨_, h4, happ0, rfl, rfl, rfl, rfl, rfl, hstate, hhero, hvillain,
      hboard, hopen, hraise, hbest, hchosen, hcomp.trans hlive⟩

/-- Rng for the `C3` counterexample: the first two shuffles are the
identity, later ones reverse the deck, so the two menu computations draw
different showdowns. -/
def c3Rng : Rng := ⟨fun i d => if i ≤ 1 then d else d.reverse, fun _ => 0, 0, 0⟩

/-- One-hand, one-sample configuration for the `C3` counterexample. -/
def c3Cfg : SessionConfig := ⟨1, 1, .Balanced⟩

/-- Snapshot before the out-of-menu action. -/
def c3Before : Option SessionState :=
  (Session.new 0 c3Cfg c3Rng).bind (fun s => (Session.snapshot s).map Prod.fst)

/-- Snapshot after applying the out-of-menu Check. -/
def c3After : Option SessionState :=
  (Session.new 0 c3Cfg c3Rng).bind (fun s =>
    (Session.apply_action s ⟨.Check, none⟩).bind (fun s' =>
      (Session.snapshot s').map Prod.fst))

set_option maxRecDepth 10000 in
/-- Counterexample to `C3` as stated: in a freshly created session whose
menu does not contain the bare Check action, applying that Check leaves a
*different* snapshot — the recomputed options carry different EV deltas. -/
theorem c3_counterexample :
    ((Session.new 0 c3Cfg c3Rng).map (fun s => s.current_hand.isSome)) = some true ∧
    (c3Before.map (fun st => st.node.action_options.all
        (fun o => decide (o.action ≠ ⟨.Check, none⟩)))) = some true ∧
    c3Before.isSome = true ∧ c3After.isSome = true ∧
    c3Before ≠ c3After := by
  decide

/-- Concrete live preflop hand for the `C3` witness. -/
def c3wHand : Hand :=
  { hero := (⟨.ace, .spades⟩, ⟨.king, .spades⟩)
    villain := (⟨.two, .hearts⟩, ⟨.three, .hearts⟩)
    board := [⟨.four, .clubs⟩, ⟨.five, .clubs⟩, ⟨.six, .clubs⟩,
              ⟨.seven, .clubs⟩, ⟨.eight, .clubs⟩]
    open_size := 2
    raise_size := 9
    state := ⟨.Preflop, 3, 1, 2, 0, 98⟩
    options := [⟨⟨.Fold, none⟩, qneg 1⟩]
    current_best_ev := qneg 1
    total_best_ev := 0
    total_chosen_ev := 0
    completed := false }

/-- Concrete session wrapping `c3wHand` for the `C3` witness. -/
def c3wSession : Session :=
  { session_id := 0
    rng := idRng
    config := ⟨1, 1, .Balanced⟩
    profile := profB
    current_hand := some c3wHand
    summary := ⟨0, 0, 0⟩ }

set_option maxRecDepth 10000 in
/-- Witness for `C3` at a concrete out-of-menu action. -/
theorem c3_no_match_recomputes_witness :
    c3wSession.current_hand = some c3wHand ∧
      c3wHand.completed = false ∧
      (∀ opt ∈ c3wHand.options, opt.action ≠ (⟨.Check, none⟩ : HeroAction)) ∧
      (Session.apply_action c3wSession ⟨.Check, none⟩).isSome = true ∧
      (∃ s' h', Session.apply_action c3wSession ⟨.Check, none⟩ = some s' ∧
        s'.summary = c3wSession.summary ∧ s'.config = c3wSession.config ∧
        s'.profile = c3wSession.profile ∧ s'.session_id = c3wSession.session_id ∧
        s'.current_hand = some h' ∧
        h'.state = c3wHand.state ∧ h'.hero = c3wHand.hero ∧ h'.villain = c3wHand.villain ∧
        h'.board = c3wHand.board ∧ h'.open_size = c3wHand.open_size ∧
        h'.raise_size = c3wHand.raise_size ∧ h'.total_best_ev = c3wHand.total_best_ev ∧
        h'.total_chosen_ev = c3wHand.total_chosen_ev ∧ h'.completed = false) :=
  ⟨rfl, rfl, by decide, by decide,
    c3_no_match_recomputes c3wSession c3wHand ⟨.Check, none⟩ rfl rfl
      (by decide) (by decide)⟩

/-- C9: in a session configured for exactly one hand, applying the preflop
Fold option from the current menu increments `hands_played` by exactly 1,
drops the current hand, keeps the cumulative EV loss non-negative (the
per-hand loss is the best-minus-chosen difference floored at zero), and
makes the next snapshot report `Completed`. -/
theorem c9_preflop_fold_completes (s : Session) (hand : Hand)
    (hcfg : s.config.hands = 1)
    (hhand : s.current_hand = some hand)
    (hlive : hand.completed = false)
    (hst : hand.state.street = .Preflop)
    (hopt : ∃ opt ∈ hand.options, opt.action = ⟨.Fold, none⟩)
    (hloss : 0 ≤ s.summary.total_ev_loss_bb) :
    ∃ s', Session.apply_action s ⟨.Fold, none⟩ = some s' ∧
      s'.summary.hands_played = s.summary.hands_played + 1 ∧
      s'.current_hand = none ∧
      0 ≤ s'.summary.total_ev_loss_bb ∧
      ∃ st, Session.snapshot s' = some (st, s') ∧ st.status = .Completed ∧
        st.summary.hands_played = s.summary.hands_played + 1 := by
  have hfind0 : ∃ y, hand.options.find?
      (fun c => decide (c.action = ({ kind := .Fold, size_bb := none } : HeroAction))) =
        some y :=
    find?_some_of_mem _ _
      (by obtain ⟨o, hm, he⟩ := hopt; exact ⟨o, hm, decide_eq_true he⟩)
  obtain ⟨copt, hfind⟩ := hfind0
  unfold Session.apply_action
  rw [hhand]
  dsimp only
  rw [if_neg (by simp [hlive])]
  unfold Hand.apply_action
  rw [hfind]
  try dsimp only
  rw [hst]
  try dsimp only
  simp only [Hand.apply_preflop, Hand.finish]
  try dsimp only
  rw [hcfg]
  rw [if_neg (by omega)]
  refine ⟨_, rfl, rfl, rfl, ?_, ?_⟩
  · show 0 ≤ qadd s.summary.total_ev_loss_bb _
    rw [qadd_eq]
    refine add_nonneg hloss ?_
    show 0 ≤ qmax _ 0
    rw [qmax_eq]
    exact le_max_right _ 0
  · exact ⟨_, rfl, rfl, rfl⟩

/-- Concrete live preflop hand (with a fold option) for the `C9` witness. -/
def c9wHand : Hand :=
  { hero := (⟨.ace, .spades⟩, ⟨.king, .spades⟩)
    villain := (⟨.two, .hearts⟩, ⟨.three, .hearts⟩)
    board := [⟨.four, .clubs⟩, ⟨.five, .clubs⟩, ⟨.six, .clubs⟩,
              ⟨.seven, .clubs⟩, ⟨.eight, .clubs⟩]
    open_size := 2
    raise_size := 9
    state := ⟨.Preflop, 3, 1, 2, 0, 98⟩
    options := [⟨⟨.Fold, none⟩, qneg 1⟩, ⟨⟨.Call, some 2⟩, 0⟩]
    current_best_ev := 0
    total_best_ev := 0
    total_chosen_ev := 0
    completed := false }

/-- Concrete one-hand session wrapping `c9wHand` for the `C9` witness. -/
def c9wSession : Session :=
  { session_id := 0
    rng := idRng
    config := ⟨1, 1, .Balanced⟩
    profile := profB
    current_hand := some c9wHand
    summary := ⟨0, 0, 0⟩ }

/-- Witness for `C9` at a concrete preflop fold. -/
theorem c9_preflop_fold_completes_witness :
    c9wSession.config.hands = 1 ∧
      c9wSession.current_hand = some c9wHand ∧
      c9wHand.completed = false ∧
      c9wHand.state.street = .Preflop ∧
      (∃ opt ∈ c9wHand.options, opt.action = (⟨.Fold, none⟩ : HeroAction)) ∧
      0 ≤ c9wSession.summary.total_ev_loss_bb ∧
      (∃ s', Session.apply_action c9wSession ⟨.Fold, none⟩ = some s' ∧
        s'.summary.hands_played = c9wSession.summary.hands_played + 1 ∧
        s'.current_hand = none ∧
        0 ≤ s'.summary.total_ev_loss_bb ∧
        ∃ st, Session.snapshot s' = some (st, s') ∧ st.status = .Completed ∧
          st.summary.hands_played = c9wSession.summary.hands_played + 1) :=
  ⟨rfl, rfl, rfl, rfl, by decide, by decide,
    c9_preflop_fold_completes c9wSession c9wHand rfl rfl rfl rfl
      (by decide) (by decide)⟩

/-- C10: once no current hand remains, `apply_action` returns the session
unchanged for every action, and the snapshot still reports `Completed`
with the same summary. -/
theorem c10_completed_session_noop (s : Session) (a : HeroAction)
    (h : s.current_hand = none) :
    Session.apply_action s a = some s ∧
      ∃ st, Session.snapshot s = some (st, s) ∧ st.status = .Completed ∧
        st.summary = s.summary := by
  constructor
  · unfold Session.apply_action
    rw [h]
  · unfold Session.snapshot
    rw [h]
    exact ⟨_, rfl, rfl, rfl⟩

/-- Concrete completed session for the `C10` witness. -/
def c10wSession : Session :=
  { session_id := 7
    rng := idRng
    config := ⟨1, 1, .Balanced⟩
    profile := profB
    current_hand := none
    summary := ⟨1, 0, qneg 1⟩ }

/-- Witness for `C10` at a concrete completed session. -/
theorem c10_completed_session_noop_witness :
    c10wSession.current_hand = none ∧
      (Session.apply_action c10wSession ⟨.Raise, some 9⟩ = some c10wSession ∧
        ∃ st, Session.snapshot c10wSession = some (st, c10wSession) ∧
          st.status = .Completed ∧ st.summary = c10wSession.summary) :=
  ⟨rfl, c10_completed_session_noop c10wSession ⟨.Raise, some 9⟩ rfl⟩
